import Mathlib

/-!
Verification of the jupyter-nodejs kernel source.

The development shallowly embeds the kernel source: the multipart message
codec (the functions named parse and send in the source), the
execute-request handler installed on the shell socket, the code-rewriting
pass (rewriteCode), and a small evaluator for the persistent vm context the
rewritten code runs in.
-/

namespace Kernel

/-! ## JSON values

JavaScript JSON values as manipulated by JSON.parse / JSON.stringify in the
source.  Numbers are modelled as integers (the payloads the kernel builds
carry only integral numbers); object fields keep insertion order, which is
the order JSON.stringify serializes them in.  The lists of elements and
fields are given as mutual inductives so that all functions over them are
structurally recursive and reduce inside the kernel. -/

mutual

inductive Json where
  | null : Json
  | boolJ : Bool → Json
  | numJ : Int → Json
  | strJ : String → Json
  | arrJ : JsonList → Json
  | objJ : JsonFields → Json

inductive JsonList where
  | nil : JsonList
  | cons : Json → JsonList → JsonList

inductive JsonFields where
  | fnil : JsonFields
  | fcons : String → Json → JsonFields → JsonFields

end

/-- Build a JsonList from a Lean list. -/
def JsonList.ofList : List Json → JsonList
  | [] => .nil
  | x :: xs => .cons x (JsonList.ofList xs)

/-- Build JsonFields from a Lean association list. -/
def JsonFields.ofList : List (String × Json) → JsonFields
  | [] => .fnil
  | (k, v) :: xs => .fcons k v (JsonFields.ofList xs)

/-- Convenience constructor mirroring a JS array literal. -/
def jarr (xs : List Json) : Json := .arrJ (JsonList.ofList xs)

/-- Convenience constructor mirroring a JS object literal. -/
def jobj (fs : List (String × Json)) : Json := .objJ (JsonFields.ofList fs)

def JsonFields.append : JsonFields → JsonFields → JsonFields
  | .fnil, gs => gs
  | .fcons k v fs, gs => .fcons k v (JsonFields.append fs gs)

/-- Property lookup on the fields of an object; like JS objects built by
JSON.parse, a later binding of the same key wins. -/
def lookFields (k : String) : JsonFields → Option Json
  | .fnil => none
  | .fcons k0 v fs =>
    match lookFields k fs with
    | some r => some r
    | none => if k0 = k then some v else none

/-- Model of JS property access on a parsed JSON value: an object yields its
property (none standing for undefined), a primitive has none of the
properties the kernel reads. -/
def jlookup (j : Json) (k : String) : Option Json :=
  match j with
  | .objJ fs => lookFields k fs
  | _ => none

/-! ## JSON serialization (the model of JSON.stringify) -/

/-- Characters our string model admits: everything except control
characters other than tab, newline and carriage return (those three are the
escapes the serializer handles). -/
def okChar (c : Char) : Bool :=
  32 ≤ c.toNat || c = Char.ofNat 10 || c = Char.ofNat 9 || c = Char.ofNat 13

/-- JSON string escaping as JSON.stringify performs it on the characters
admitted by okChar. -/
def escChar (c : Char) : List Char :=
  if c = '"' then ['\\', '"']
  else if c = '\\' then ['\\', '\\']
  else if c = Char.ofNat 10 then ['\\', 'n']
  else if c = Char.ofNat 9 then ['\\', 't']
  else if c = Char.ofNat 13 then ['\\', 'r']
  else [c]

def escList : List Char → List Char
  | [] => []
  | c :: cs => escChar c ++ escList cs

/-- Decimal digits of a natural number, most significant first; the fuel
argument makes the recursion structural. -/
def natCharsAux : Nat → Nat → List Char
  | 0, _ => []
  | fuel + 1, n =>
    if n < 10 then [Char.ofNat (48 + n)]
    else natCharsAux fuel (n / 10) ++ [Char.ofNat (48 + n % 10)]

def natChars (n : Nat) : List Char := natCharsAux (n + 1) n

def intChars (i : Int) : List Char :=
  if i < 0 then '-' :: natChars (-i).toNat else natChars i.toNat

mutual

/-- JSON.stringify, producing a character list. -/
def stringifyChars : Json → List Char
  | .null => ['n', 'u', 'l', 'l']
  | .boolJ true => ['t', 'r', 'u', 'e']
  | .boolJ false => ['f', 'a', 'l', 's', 'e']
  | .numJ i => intChars i
  | .strJ s => '"' :: (escList s.toList ++ ['"'])
  | .arrJ xs => '[' :: (stringifyElems xs ++ [']'])
  | .objJ fs => '{' :: (stringifyFields fs ++ ['}'])

def stringifyElems : JsonList → List Char
  | .nil => []
  | .cons x .nil => stringifyChars x
  | .cons x (.cons y ys) => stringifyChars x ++ ',' :: stringifyElems (.cons y ys)

def stringifyFields : JsonFields → List Char
  | .fnil => []
  | .fcons k v .fnil => '"' :: (escList k.toList ++ ['"']) ++ ':' :: stringifyChars v
  | .fcons k v (.fcons k2 v2 fs) =>
      '"' :: (escList k.toList ++ ['"']) ++ ':' :: stringifyChars v
        ++ ',' :: stringifyFields (.fcons k2 v2 fs)

end

def jsonStringify (j : Json) : String := String.mk (stringifyChars j)

/-! ## JSON parsing (the model of JSON.parse) -/

def unescChar (c : Char) : Option Char :=
  if c = '"' then some '"'
  else if c = '\\' then some '\\'
  else if c = '/' then some '/'
  else if c = 'n' then some (Char.ofNat 10)
  else if c = 't' then some (Char.ofNat 9)
  else if c = 'r' then some (Char.ofNat 13)
  else none

/-- Parse the body of a string literal (the opening quote already consumed),
returning the unescaped characters and the remaining input. -/
def pStr : List Char → Option (List Char × List Char)
  | [] => none
  | c :: r =>
    if c = '"' then some ([], r)
    else if c = '\\' then
      match r with
      | [] => none
      | e :: r2 =>
        match unescChar e with
        | none => none
        | some u =>
          match pStr r2 with
          | none => none
          | some (s, rest) => some (u :: s, rest)
    else if okChar c then
      match pStr r with
      | none => none
      | some (s, rest) => some (c :: s, rest)
    else none

def digitToNat (c : Char) : Nat := c.toNat - 48

def digitsToNat : List Char → Nat → Nat
  | [], acc => acc
  | c :: cs, acc => digitsToNat cs (acc * 10 + digitToNat c)

/-- Parse a nonempty run of decimal digits. -/
def pNum (l : List Char) : Option (Nat × List Char) :=
  match l with
  | [] => none
  | c :: _ =>
    if c.isDigit then
      some (digitsToNat (l.takeWhile Char.isDigit) 0, l.dropWhile Char.isDigit)
    else none

/-- Consume an exact run of characters. -/
def expectChars : List Char → List Char → Option (List Char)
  | [], r => some r
  | _ :: _, [] => none
  | c :: cs, d :: r => if c = d then expectChars cs r else none

mutual

/-- Fueled JSON value parser; the fuel bounds the recursion and is chosen
large enough by jsonParse that it never runs out. -/
def pVal : Nat → List Char → Option (Json × List Char)
  | 0, _ => none
  | _ + 1, [] => none
  | fuel + 1, c :: r =>
    if c = 'n' then
      match expectChars ['u', 'l', 'l'] r with
      | none => none
      | some r2 => some (.null, r2)
    else if c = 't' then
      match expectChars ['r', 'u', 'e'] r with
      | none => none
      | some r2 => some (.boolJ true, r2)
    else if c = 'f' then
      match expectChars ['a', 'l', 's', 'e'] r with
      | none => none
      | some r2 => some (.boolJ false, r2)
    else if c = '"' then
      match pStr r with
      | none => none
      | some (s, rest) => some (.strJ (String.mk s), rest)
    else if c = '[' then
      if r.head? = some ']' then some (.arrJ .nil, r.tail)
      else
        match pElems fuel r with
        | none => none
        | some (xs, rest) => some (.arrJ xs, rest)
    else if c = '{' then
      if r.head? = some '}' then some (.objJ .fnil, r.tail)
      else
        match pFields fuel r with
        | none => none
        | some (fs, rest) => some (.objJ fs, rest)
    else if c = '-' then
      match pNum r with
      | none => none
      | some (n, rest) => some (.numJ (-(n : Int)), rest)
    else
      match pNum (c :: r) with
      | none => none
      | some (n, rest) => some (.numJ (n : Int), rest)

/-- Parse one or more comma-separated elements followed by a closing
bracket. -/
def pElems : Nat → List Char → Option (JsonList × List Char)
  | 0, _ => none
  | fuel + 1, l =>
    match pVal fuel l with
    | none => none
    | some (j, r) =>
      if r.head? = some ',' then
        match pElems fuel r.tail with
        | none => none
        | some (xs, rest) => some (.cons j xs, rest)
      else if r.head? = some ']' then some (.cons j .nil, r.tail)
      else none

/-- Parse one or more comma-separated key-value pairs followed by a closing
brace. -/
def pFields : Nat → List Char → Option (JsonFields × List Char)
  | 0, _ => none
  | fuel + 1, l =>
    if l.head? = some '"' then
      match pStr l.tail with
      | none => none
      | some (k, r2) =>
        if r2.head? = some ':' then
          match pVal fuel r2.tail with
          | none => none
          | some (v, r4) =>
            if r4.head? = some ',' then
              match pFields fuel r4.tail with
              | none => none
              | some (fs, rest) => some (.fcons (String.mk k) v fs, rest)
            else if r4.head? = some '}' then some (.fcons (String.mk k) v .fnil, r4.tail)
            else none
        else none
    else none

end

/-- The model of JSON.parse: a full-input parse of the string.  The fuel is
large enough that the parser never exhausts it (each two successive
recursive calls consume at least one character). -/
def jsonParse (s : String) : Option Json :=
  match pVal (2 * s.toList.length + 2) s.toList with
  | some (j, []) => some j
  | _ => none

/-! ## Well-formedness of payloads

The string model admits every character except control characters other
than tab, newline and carriage return; wfJson requires every string and
every object key of a payload to stay inside that model. -/

def okString (s : String) : Bool := s.toList.all okChar

mutual

def wfJson : Json → Bool
  | .null => true
  | .boolJ _ => true
  | .numJ _ => true
  | .strJ s => okString s
  | .arrJ xs => wfList xs
  | .objJ fs => wfFields fs

def wfList : JsonList → Bool
  | .nil => true
  | .cons x xs => wfJson x && wfList xs

def wfFields : JsonFields → Bool
  | .fnil => true
  | .fcons k v fs => okString k && wfJson v && wfFields fs

end

/-! ## Character-level facts -/

theorem char_eq_iff_toNat (c d : Char) : c = d ↔ c.toNat = d.toNat := by
  constructor
  · intro h; rw [h]
  · intro h; exact Char.ext (UInt32.ext h)

theorem isDigit_toNat (c : Char) (h : c.isDigit = true) : 48 ≤ c.toNat ∧ c.toNat ≤ 57 := by
  simp [Char.isDigit] at h
  exact h

/-- A decimal digit character is none of the characters the parser
dispatches on. -/
theorem digit_ne_special (c : Char) (h : c.isDigit = true) :
    c ≠ 'n' ∧ c ≠ 't' ∧ c ≠ 'f' ∧ c ≠ '"' ∧ c ≠ '[' ∧ c ≠ '{' ∧ c ≠ '-' ∧
      c ≠ ']' ∧ c ≠ '}' ∧ c ≠ ',' ∧ c ≠ ':' := by
  obtain ⟨h1, h2⟩ := isDigit_toNat c h
  refine ⟨?_, ?_, ?_, ?_, ?_, ?_, ?_, ?_, ?_, ?_, ?_⟩ <;>
    · intro he
      rw [char_eq_iff_toNat] at he
      simp at he
      omega

/-! ## Round-trip of the string escape -/

theorem expectChars_self (lit rest : List Char) : expectChars lit (lit ++ rest) = some rest := by
  induction lit with
  | nil => rfl
  | cons c cs ih => simp [expectChars, ih]

theorem pStr_quote (r : List Char) : pStr ('"' :: r) = some ([], r) := by
  rw [pStr.eq_def]
  rfl

theorem pStr_escStep (e : Char) (u : Char) (r2 cs rest : List Char)
    (he : unescChar e = some u) (ih : pStr r2 = some (cs, rest)) :
    pStr ('\\' :: e :: r2) = some (u :: cs, rest) := by
  rw [pStr.eq_def]
  simp [he, ih]

theorem pStr_plain (c : Char) (r cs rest : List Char) (h1 : ¬c = '"') (h2 : ¬c = '\\')
    (hok : okChar c = true) (ih : pStr r = some (cs, rest)) :
    pStr (c :: r) = some (c :: cs, rest) := by
  rw [pStr.eq_def]
  simp [h1, h2, hok, ih]

theorem pStr_esc (cs : List Char) (rest : List Char) (h : ∀ c ∈ cs, okChar c = true) :
    pStr (escList cs ++ '"' :: rest) = some (cs, rest) := by
  induction cs with
  | nil => rw [escList, List.nil_append, pStr_quote]
  | cons c cs ih =>
    have hc : okChar c = true := h c (by simp)
    have ih2 := ih (fun x hx => h x (by simp [hx]))
    rw [escList, List.append_assoc]
    by_cases h1 : c = '"'
    · subst h1; exact pStr_escStep _ _ _ _ _ (by decide) ih2
    · by_cases h2 : c = '\\'
      · subst h2; exact pStr_escStep _ _ _ _ _ (by decide) ih2
      · by_cases h3 : c = Char.ofNat 10
        · subst h3; exact pStr_escStep _ _ _ _ _ (by decide) ih2
        · by_cases h4 : c = Char.ofNat 9
          · subst h4; exact pStr_escStep _ _ _ _ _ (by decide) ih2
          · by_cases h5 : c = Char.ofNat 13
            · subst h5; exact pStr_escStep _ _ _ _ _ (by decide) ih2
            · rw [escChar, if_neg h1, if_neg h2, if_neg h3, if_neg h4, if_neg h5]
              exact pStr_plain c _ cs rest h1 h2 hc ih2

/-! ## Round-trip of decimal numerals -/

theorem natCharsAux_eq_of_lt (f1 : Nat) : ∀ f2 n, n < f1 → n < f2 →
    natCharsAux f1 n = natCharsAux f2 n := by
  induction f1 with
  | zero => intro f2 n h; omega
  | succ a ih =>
    intro f2 n h1 h2
    match f2, h2 with
    | b + 1, _ =>
      rw [natCharsAux, natCharsAux]
      by_cases hn : n < 10
      · simp [hn]
      · simp [hn]
        exact ih b (n / 10) (by omega) (by omega)

theorem natChars_eq (n : Nat) : natChars n =
    if n < 10 then [Char.ofNat (48 + n)]
    else natChars (n / 10) ++ [Char.ofNat (48 + n % 10)] := by
  rw [natChars, natCharsAux]
  by_cases hn : n < 10
  · simp [hn]
  · simp [hn, natChars]
    exact natCharsAux_eq_of_lt n (n / 10 + 1) (n / 10) (by omega) (by omega)

theorem digit_char_facts (k : Nat) (h : k < 10) :
    (Char.ofNat (48 + k)).isDigit = true ∧ (Char.ofNat (48 + k)).toNat = 48 + k := by
  interval_cases k <;> exact ⟨by decide, by decide⟩

theorem natChars_all_digits (n : Nat) : ∀ c ∈ natChars n, c.isDigit = true := by
  induction n using Nat.strong_induction_on with
  | _ n ih =>
    rw [natChars_eq]
    by_cases hn : n < 10
    · simp only [if_pos hn, List.mem_singleton]
      intro c hc; subst hc; exact (digit_char_facts n hn).1
    · simp only [if_neg hn, List.mem_append, List.mem_singleton]
      intro c hc
      rcases hc with hc | hc
      · exact ih (n / 10) (by omega) c hc
      · subst hc; exact (digit_char_facts (n % 10) (by omega)).1

theorem natChars_ne_nil (n : Nat) : natChars n ≠ [] := by
  rw [natChars_eq]
  by_cases hn : n < 10 <;> simp [hn]

theorem digitsToNat_cons (acc : Nat) (c : Char) (cs : List Char) :
    digitsToNat (c :: cs) acc = digitsToNat cs (acc * 10 + digitToNat c) := by
  simp only [digitsToNat]

theorem digitsToNat_append (xs : List Char) (d : Char) : ∀ acc,
    digitsToNat (xs ++ [d]) acc = 10 * digitsToNat xs acc + digitToNat d := by
  induction xs with
  | nil =>
    intro acc
    rw [List.nil_append, digitsToNat_cons]
    simp only [digitsToNat]
    omega
  | cons c cs ih =>
    intro acc
    rw [List.cons_append, digitsToNat_cons, digitsToNat_cons, ih]

theorem digitsToNat_natChars (n : Nat) : digitsToNat (natChars n) 0 = n := by
  induction n using Nat.strong_induction_on with
  | _ n ih =>
    rw [natChars_eq]
    by_cases hn : n < 10
    · rw [if_pos hn, digitsToNat_cons]
      simp only [digitsToNat]
      rw [digitToNat, (digit_char_facts n hn).2]
      omega
    · rw [if_neg hn, digitsToNat_append, ih (n / 10) (by omega), digitToNat,
        (digit_char_facts (n % 10) (by omega)).2]
      omega

/-- Does the input not begin with a digit? -/
def noDigitStart : List Char → Bool
  | [] => true
  | c :: _ => !c.isDigit

theorem takeDropWhile_append (p : Char → Bool) (a : List Char) : ∀ b,
    (∀ c ∈ a, p c = true) →
    (match b with | [] => True | c :: _ => p c = false) →
    (a ++ b).takeWhile p = a ∧ (a ++ b).dropWhile p = b := by
  induction a with
  | nil =>
    intro b _ hb
    match b with
    | [] => simp
    | c :: r =>
      refine ⟨?_, ?_⟩
      · simp only [List.nil_append, List.takeWhile]
        simp [hb]
      · simp only [List.nil_append, List.dropWhile]
        simp [hb]
  | cons c cs ih =>
    intro b ha hb
    have hc : p c = true := ha c (by simp)
    have h2 := ih b (fun x hx => ha x (by simp [hx])) hb
    simp only [List.cons_append, List.takeWhile_cons, List.dropWhile_cons, hc]
    simp [h2.1, h2.2]

theorem pNum_natChars (n : Nat) (rest : List Char) (hrest : noDigitStart rest = true) :
    pNum (natChars n ++ rest) = some (n, rest) := by
  obtain ⟨c, t, hct⟩ : ∃ c t, natChars n = c :: t := by
    match h : natChars n with
    | [] => exact absurd h (natChars_ne_nil n)
    | c :: t => exact ⟨c, t, rfl⟩
  have hall := natChars_all_digits n
  have htw := takeDropWhile_append Char.isDigit (natChars n) rest hall (by
    match rest, hrest with
    | [], _ => trivial
    | c2 :: r2, hr => simpa [noDigitStart] using hr)
  have hcd : c.isDigit = true := hall c (by rw [hct]; simp)
  rw [hct] at htw ⊢
  rw [List.cons_append, pNum.eq_def]
  simp only [hcd, if_pos]
  rw [← List.cons_append, htw.1, htw.2, ← hct, digitsToNat_natChars]

end Kernel

namespace Kernel

theorem mk_toList (s : String) : String.mk s.toList = s := rfl

theorem mk_data (s : String) : String.mk s.data = s := rfl

theorem stringifyChars_cons (j : Json) : ∃ c t, stringifyChars j = c :: t ∧ ¬c = ']' ∧ ¬c = '}' := by
  cases j with
  | null => exact ⟨'n', _, rfl, by decide, by decide⟩
  | boolJ b =>
    cases b with
    | true => exact ⟨'t', _, rfl, by decide, by decide⟩
    | false => exact ⟨'f', _, rfl, by decide, by decide⟩
  | strJ s => exact ⟨'"', _, rfl, by decide, by decide⟩
  | arrJ xs => exact ⟨'[', _, rfl, by decide, by decide⟩
  | objJ fs => exact ⟨'{', _, rfl, by decide, by decide⟩
  | numJ i =>
    show ∃ c t, intChars i = c :: t ∧ ¬c = ']' ∧ ¬c = '}'
    rw [intChars]
    by_cases hi : i < 0
    · exact ⟨'-', _, by rw [if_pos hi], by decide, by decide⟩
    · rw [if_neg hi]
      obtain ⟨c, t, hct⟩ : ∃ c t, natChars i.toNat = c :: t := by
        match h : natChars i.toNat with
        | [] => exact absurd h (natChars_ne_nil _)
        | c :: t => exact ⟨c, t, rfl⟩
      have hcd : c.isDigit = true := natChars_all_digits _ c (by rw [hct]; simp)
      obtain ⟨_, _, _, _, _, _, _, h8, h9, _, _⟩ := digit_ne_special c hcd
      exact ⟨c, t, hct, h8, h9⟩

theorem stringifyElems_cons (x : Json) (xs : JsonList) :
    ∃ c t, stringifyElems (.cons x xs) = c :: t ∧ ¬c = ']' ∧ ¬c = '}' := by
  obtain ⟨c, t, hct, h1, h2⟩ := stringifyChars_cons x
  cases xs with
  | nil => exact ⟨c, t, by rw [stringifyElems, hct], h1, h2⟩
  | cons y ys =>
    refine ⟨c, t ++ ',' :: stringifyElems (.cons y ys), ?_, h1, h2⟩
    rw [stringifyElems, hct]
    simp

theorem nds_cons (c : Char) (r : List Char) (h : c.isDigit = false) :
    noDigitStart (c :: r) = true := by
  simp [noDigitStart, h]

end Kernel

namespace Kernel

set_option maxHeartbeats 1000000 in
theorem parser_stringify : ∀ fuel,
    (∀ j rest, wfJson j = true → noDigitStart rest = true →
      2 * (stringifyChars j).length + 2 * rest.length + 1 ≤ fuel →
      pVal fuel (stringifyChars j ++ rest) = some (j, rest)) ∧
    (∀ x xs rest, wfList (.cons x xs) = true →
      2 * (stringifyElems (.cons x xs)).length + 2 * rest.length + 4 ≤ fuel →
      pElems fuel (stringifyElems (.cons x xs) ++ ']' :: rest) = some (.cons x xs, rest)) ∧
    (∀ k v fs rest, wfFields (.fcons k v fs) = true →
      2 * (stringifyFields (.fcons k v fs)).length + 2 * rest.length + 4 ≤ fuel →
      pFields fuel (stringifyFields (.fcons k v fs) ++ '}' :: rest) = some (.fcons k v fs, rest)) := by
  intro fuel
  induction fuel using Nat.strong_induction_on with
  | _ fuel ih =>
    refine ⟨?_, ?_, ?_⟩
    · intro j rest hwf hnd hb
      match fuel, hb with
      | f + 1, hb =>
      cases j with
      | null =>
        rw [stringifyChars] at hb ⊢
        rw [pVal.eq_def]
        simp [expectChars]
      | boolJ b =>
        cases b with
        | true =>
          rw [stringifyChars] at hb ⊢
          rw [pVal.eq_def]
          simp [expectChars]
        | false =>
          rw [stringifyChars] at hb ⊢
          rw [pVal.eq_def]
          simp [expectChars]
      | strJ s =>
        rw [stringifyChars] at hb ⊢
        rw [wfJson] at hwf
        have hok : ∀ c ∈ s.toList, okChar c = true := by
          rw [okString] at hwf
          simpa using hwf
        have hps := pStr_esc s.toList rest hok
        simp only [String.toList] at hps
        rw [pVal.eq_def]
        simp only [List.cons_append, List.append_assoc, List.singleton_append]
        simp [hps, mk_data]
      | numJ i =>
        have hsn : stringifyChars (Json.numJ i) = intChars i := rfl
        rw [hsn] at hb ⊢
        by_cases hi : i < 0
        · rw [intChars, if_pos hi] at hb ⊢
          have hpn := pNum_natChars (-i).toNat rest hnd
          rw [pVal.eq_def]
          simp only [List.cons_append]
          simp [hpn]
          omega
        · rw [intChars, if_neg hi] at hb ⊢
          obtain ⟨c, t, hct⟩ : ∃ c t, natChars i.toNat = c :: t := by
            match h : natChars i.toNat with
            | [] => exact absurd h (natChars_ne_nil _)
            | c :: t => exact ⟨c, t, rfl⟩
          have hcd : c.isDigit = true := natChars_all_digits _ c (by rw [hct]; simp)
          obtain ⟨n1, n2, n3, n4, n5, n6, n7, _, _, _, _⟩ := digit_ne_special c hcd
          have hpn := pNum_natChars i.toNat rest hnd
          rw [hct] at hpn ⊢
          rw [List.cons_append] at hpn ⊢
          rw [pVal.eq_def]
          simp [n1, n2, n3, n4, n5, n6, n7, hpn]
          omega
      | arrJ xs =>
        rw [stringifyChars] at hb ⊢
        cases xs with
        | nil =>
          rw [stringifyElems] at hb ⊢
          rw [pVal.eq_def]
          simp
        | cons x xs2 =>
          obtain ⟨c, t, hct, hc1, hc2⟩ := stringifyElems_cons x xs2
          rw [pVal.eq_def]
          simp only [List.cons_append, List.append_assoc, List.singleton_append]
          have hpe := (ih f (by omega)).2.1 x xs2 rest (by rw [wfJson] at hwf; exact hwf)
            (by simp at hb ⊢; omega)
          rw [hct] at hpe ⊢
          rw [List.cons_append] at hpe ⊢
          simp [hpe, hc1]
      | objJ fs =>
        rw [stringifyChars] at hb ⊢
        cases fs with
        | fnil =>
          rw [stringifyFields] at hb ⊢
          rw [pVal.eq_def]
          simp
        | fcons k v fs2 =>
          rw [pVal.eq_def]
          simp only [List.cons_append, List.append_assoc, List.singleton_append]
          have hpf := (ih f (by omega)).2.2 k v fs2 rest (by rw [wfJson] at hwf; exact hwf)
            (by simp at hb ⊢; omega)
          have hshape : ∃ t2, stringifyFields (.fcons k v fs2) = '"' :: t2 := by
            cases fs2 with
            | fnil =>
              refine ⟨escList k.toList ++ '"' :: ':' :: stringifyChars v, ?_⟩
              rw [stringifyFields]
              simp
            | fcons k2 v2 fs3 =>
              refine ⟨escList k.toList ++ '"' :: ':' ::
                (stringifyChars v ++ ',' :: stringifyFields (.fcons k2 v2 fs3)), ?_⟩
              rw [stringifyFields]
              simp
          obtain ⟨t2, ht2⟩ := hshape
          rw [ht2] at hpf ⊢
          rw [List.cons_append] at hpf ⊢
          simp [hpf]
    · intro x xs rest hwf hb
      match fuel, hb with
      | f + 1, hb =>
      rw [wfList, Bool.and_eq_true] at hwf
      rw [pElems.eq_def]
      cases xs with
      | nil =>
        rw [stringifyElems] at hb ⊢
        have hpv := (ih f (by omega)).1 x (']' :: rest) hwf.1
          (by simp [noDigitStart]) (by simp at hb ⊢; omega)
        simp [hpv]
      | cons y ys =>
        rw [stringifyElems] at hb ⊢
        simp only [List.cons_append, List.append_assoc]
        have hpv := (ih f (by omega)).1 x
          (',' :: (stringifyElems (.cons y ys) ++ ']' :: rest)) hwf.1
          (by simp [noDigitStart]) (by simp at hb ⊢; omega)
        have hpe := (ih f (by omega)).2.1 y ys rest hwf.2 (by simp at hb ⊢; omega)
        simp [hpv, hpe]
    · intro k v fs rest hwf hb
      match fuel, hb with
      | f + 1, hb =>
      rw [wfFields, Bool.and_eq_true, Bool.and_eq_true] at hwf
      obtain ⟨⟨hok, hwv⟩, hwfs⟩ := hwf
      have hok2 : ∀ c ∈ k.toList, okChar c = true := by
        rw [okString] at hok
        simpa using hok
      rw [pFields.eq_def]
      cases fs with
      | fnil =>
        rw [stringifyFields] at hb ⊢
        have hps := pStr_esc k.toList (':' :: (stringifyChars v ++ '}' :: rest)) hok2
        simp only [String.toList] at hps
        have hpv := (ih f (by omega)).1 v ('}' :: rest) hwv
          (by simp [noDigitStart]) (by simp at hb ⊢; omega)
        simp only [List.cons_append, List.append_assoc, List.singleton_append]
        simp [hps, hpv, mk_data]
      | fcons k2 v2 fs2 =>
        rw [stringifyFields] at hb ⊢
        have hps := pStr_esc k.toList
          (':' :: (stringifyChars v ++ ',' :: (stringifyFields (.fcons k2 v2 fs2) ++ '}' :: rest))) hok2
        simp only [String.toList] at hps
        have hpv := (ih f (by omega)).1 v
          (',' :: (stringifyFields (.fcons k2 v2 fs2) ++ '}' :: rest)) hwv
          (by simp [noDigitStart]) (by simp at hb ⊢; omega)
        have hpf := (ih f (by omega)).2.2 k2 v2 fs2 rest
          hwfs
          (by simp at hb ⊢; omega)
        simp only [List.cons_append, List.append_assoc, List.singleton_append]
        simp [hps, hpv, hpf, mk_data]

end Kernel

namespace Kernel

/-- JSON.parse is a left inverse of JSON.stringify on well-formed values. -/
theorem jsonParse_stringify (j : Json) (h : wfJson j = true) :
    jsonParse (jsonStringify j) = some j := by
  have hp := (parser_stringify (2 * (stringifyChars j).length + 2)).1 j [] h (by rfl)
    (by simp)
  rw [List.append_nil] at hp
  have ht : (String.mk (stringifyChars j)).toList = stringifyChars j := rfl
  rw [jsonStringify]
  simp [jsonParse, ht, hp]

/-! ## Message codec

The functions parse and send of the source file.  Frames are strings (the
source turns every received Buffer into a string before use and sends
strings).  JavaScript Array.prototype.indexOf and slice are modelled
exactly, including the -1 returned when the delimiter is absent and the
negative-index behaviour of slice. -/

/-- The delimiter frame constant DELIM of the source. -/
def DELIM : String := "<IDS|MSG>"

/-- JS Array.prototype.indexOf: index of the first occurrence, -1 when
absent. -/
def jsIndexOf (l : List String) (x : String) : Int :=
  match l with
  | [] => -1
  | a :: as =>
    if a = x then 0
    else
      let r := jsIndexOf as x
      if r < 0 then -1 else r + 1

/-- Normalize a JS slice index against a length: negative indices count from
the end and everything is clamped into the array. -/
def jsNorm (len : Nat) (idx : Int) : Nat :=
  if idx < 0 then ((len : Int) + idx).toNat else min idx.toNat len

/-- JS Array.prototype.slice with two arguments. -/
def jsSlice (l : List α) (start stop : Int) : List α :=
  (l.take (jsNorm l.length stop)).drop (jsNorm l.length start)

/-- JS Array.prototype.slice with one argument. -/
def jsSliceFrom (l : List α) (start : Int) : List α :=
  jsSlice l start (l.length : Int)

/-- The result of the parse function of the source: it keeps only the header, the
content and the identity frames; the parent-header and metadata frames are
destructured into unused positions and never parsed. -/
structure Parsed where
  header : Json
  content : Json
  uuids : List String

/-- The parse function of the source.  The error value stands for the
exception JSON.parse throws on unparsable input (including the implicit
string "undefined" obtained when a destructured frame is missing); the
source has no handler for it, so an error here propagates out of the
message listener of the socket. -/
def parse (frames : List String) : Except String Parsed :=
  let i := jsIndexOf frames DELIM
  let uuids := jsSlice frames 0 i
  let payload := jsSliceFrom frames (i + 2)
  match payload.head? with
  | none => .error "SyntaxError"
  | some hs =>
    match jsonParse hs with
    | none => .error "SyntaxError"
    | some h =>
      match payload.get? 3 with
      | none => .error "SyntaxError"
      | some cs =>
        match jsonParse cs with
        | none => .error "SyntaxError"
        | some c => .ok ⟨h, c, uuids⟩

/-- The reply header literal built inside send: msg_id is the fresh uuid,
username and session are copied from the parent header, version is the
constant protocol version string.  A field whose property access on the
parent yields undefined is omitted, which is how JSON.stringify serializes
the object literal of the source. -/
def mkHeader (replyId : String) (msgType : String) (parent : Json) : Json :=
  .objJ (JsonFields.ofList
    ([("msg_id", Json.strJ replyId)]
      ++ (match jlookup parent "username" with
          | some v => [("username", v)]
          | none => [])
      ++ [("msg_type", Json.strJ msgType)]
      ++ (match jlookup parent "session" with
          | some v => [("session", v)]
          | none => [])
      ++ [("version", Json.strJ "5.1")]))

/-- The four serialized payload strings send builds (the toHash array). -/
def toHash (replyId msgType : String) (content parent metadata : Json) : List String :=
  [jsonStringify (mkHeader replyId msgType parent),
   jsonStringify parent,
   jsonStringify metadata,
   jsonStringify content]

/-- The frame list the send function of the source writes to a socket.  hmacHex abstracts
crypto.createHmac("sha256", key) followed by update and hex digest: it maps
the key and the concatenation (join with the empty string) of the four
payload strings to the hex signature frame.  The fresh uuid replyId is the
value Math.random-based uuid() returned for this call. -/
def send (hmacHex : String → String → String) (key : String) (ids : List String)
    (msgType : String) (content parent : Json) (metadata : Json) (replyId : String) :
    List String :=
  let th := toHash replyId msgType content parent metadata
  ids ++ [DELIM, hmacHex key (String.join th)] ++ th

end Kernel

namespace Kernel

theorem jsIndexOf_append (ids : List String) (rest : List String)
    (h : ∀ x ∈ ids, x ≠ DELIM) :
    jsIndexOf (ids ++ DELIM :: rest) DELIM = (ids.length : Int) := by
  induction ids with
  | nil => simp [jsIndexOf]
  | cons a as ih =>
    have ha : a ≠ DELIM := h a (by simp)
    have ih2 := ih (fun x hx => h x (by simp [hx]))
    rw [List.cons_append, jsIndexOf]
    simp only [ha, if_false, reduceIte, ih2]
    have : ¬((as.length : Int) < 0) := by omega
    simp [this]

theorem jsSlice_zero_len (ids rest : List String) :
    jsSlice (ids ++ rest) 0 (ids.length : Int) = ids := by
  rw [jsSlice, jsNorm, jsNorm]
  have h0 : ¬((0 : Int) < 0) := by omega
  have h1 : ¬((ids.length : Int) < 0) := by omega
  simp only [h0, h1, if_false, reduceIte, Int.toNat_natCast, Int.toNat_zero]
  rw [List.length_append, min_eq_left (by omega)]
  simp [List.take_left]

theorem jsSliceFrom_nat (l : List String) (k : Nat) :
    jsSliceFrom l (k : Int) = l.drop k := by
  rw [jsSliceFrom, jsSlice, jsNorm, jsNorm]
  have h1 : ¬((k : Int) < 0) := by omega
  have h2 : ¬((l.length : Int) < 0) := by omega
  simp [h1, h2]
  by_cases hk : k ≤ l.length
  · simp [min_eq_left hk]
  · rw [min_eq_right (by omega), List.drop_length, eq_comm, List.drop_eq_nil_iff]
    omega

/-- What parse does with the frames after the signature: the first is the
header and the fourth is the content, each put through JSON.parse; nothing
else is examined. -/
def parsePayload (payload : List String) (ids : List String) : Except String Parsed :=
  match payload.head? with
  | none => .error "SyntaxError"
  | some hs =>
    match jsonParse hs with
    | none => .error "SyntaxError"
    | some h =>
      match payload.get? 3 with
      | none => .error "SyntaxError"
      | some cs =>
        match jsonParse cs with
        | none => .error "SyntaxError"
        | some c => .ok ⟨h, c, ids⟩

/-- On frames whose identity prefix is delimited by DELIM, parse keeps the
identities, skips the signature frame without looking at it, and parses the
following payload frames. -/
theorem parse_split (ids : List String) (sig : String) (rest : List String)
    (hid : ∀ x ∈ ids, x ≠ DELIM) :
    parse (ids ++ DELIM :: sig :: rest) = parsePayload rest ids := by
  rw [parse]
  have hidx := jsIndexOf_append ids (sig :: rest) hid
  rw [hidx]
  have hsl : jsSlice (ids ++ DELIM :: sig :: rest) 0 (ids.length : Int) = ids :=
    jsSlice_zero_len ids _
  have hdrop : jsSliceFrom (ids ++ DELIM :: sig :: rest) ((ids.length : Int) + 2) = rest := by
    have : ((ids.length : Int) + 2) = ((ids.length + 2 : Nat) : Int) := by omega
    rw [this, jsSliceFrom_nat]
    have : ids ++ DELIM :: sig :: rest = (ids ++ [DELIM, sig]) ++ rest := by simp
    rw [this]
    have hl : ids.length + 2 = (ids ++ [DELIM, sig]).length := by simp
    rw [hl, List.drop_left]
  rw [hsl, hdrop, parsePayload]

end Kernel

namespace Kernel

/-! ## The shell-channel execute handler

The listener installed by sockets.shell.on("message", ...) in the source.
Evaluation of user code happens in the external V8 vm; the handler model
therefore takes the outcome of the transform-and-evaluate step
(rewriteCode followed by vm.runInContext followed by util.inspect) as a
parameter: either the inspected completion value, or the JavaScript value
the evaluation threw. -/

/-- A JavaScript value as seen by the catch block: the model keeps exactly
the three properties the handler reads from a thrown value.  objV covers
every object (an Error has all three fields; a plain object has none). -/
inductive JSValue where
  | undefinedV : JSValue
  | nullV : JSValue
  | numV : Int → JSValue
  | strV : String → JSValue
  | boolV : Bool → JSValue
  | objV : Option String → Option String → Option String → JSValue
deriving DecidableEq

/-- JS property access e[k] for the properties the handler reads: throws
(the error case) on null and undefined, yields undefined on primitives and
on objects lacking the field. -/
def getProp : JSValue → String → Except Unit JSValue
  | .undefinedV, _ => .error ()
  | .nullV, _ => .error ()
  | .objV n _ _, "name" => .ok (match n with | some s => .strV s | none => .undefinedV)
  | .objV _ m _, "message" => .ok (match m with | some s => .strV s | none => .undefinedV)
  | .objV _ _ s, "stack" => .ok (match s with | some t => .strV t | none => .undefinedV)
  | _, _ => .ok .undefinedV

/-- How JSON.stringify serializes one of these values inside an object
literal: undefined makes the key disappear (none). -/
def jsvToJson : JSValue → Option Json
  | .undefinedV => none
  | .nullV => some .null
  | .numV n => some (.numJ n)
  | .strV s => some (.strJ s)
  | .boolV b => some (.boolJ b)
  | .objV n m s => some (.objJ (JsonFields.ofList
      ((match n with | some v => [("name", Json.strJ v)] | none => [])
        ++ (match m with | some v => [("message", Json.strJ v)] | none => [])
        ++ (match s with | some v => [("stack", Json.strJ v)] | none => []))))

/-- Inside an array literal JSON.stringify turns undefined into null. -/
def jsvInArr (v : JSValue) : Json := (jsvToJson v).getD .null

/-- A key-value pair that vanishes when the value is undefined, as in
JSON.stringify of an object literal. -/
def optPair (k : String) (v : JSValue) : List (String × Json) :=
  match jsvToJson v with
  | some j => [(k, j)]
  | none => []

/-- The outcome of the transform-and-evaluate step of one execute request. -/
inductive EvalOutcome where
  | ok : String → EvalOutcome
  | thrown : JSValue → EvalOutcome

/-- Completion of the handler: the report construction in the catch block
reads e.name, e.message and e.stack, which itself throws when the thrown
value is null or undefined. -/
def EvalOutcome.completes : EvalOutcome → Bool
  | .ok _ => true
  | .thrown .nullV => false
  | .thrown .undefinedV => false
  | .thrown _ => true

/-- The mutable state of the kernel: the executionCount counter and the console
binding of the persistent context (none models the initial undefined). -/
structure KernelState where
  executionCount : Nat
  consoleParent : Option Json

def initialState : KernelState := ⟨0, none⟩

/-- One observable emission: an iopub broadcast or a reply frame written to
the shell socket, with the payloads send would serialize. -/
inductive Event where
  | iopubE : String → Json → Json → Event
  | shellReply : List String → String → Json → Json → Event

/-- The info constant answered to kernel_info_request. -/
def infoContent : Json := jobj
  [("protocol_version", .strJ "5.1"),
   ("implementation", .strJ "nodejs"),
   ("implementation_version", .strJ "1.0"),
   ("language", .strJ "JavaScript"),
   ("banner", .strJ "Node.js for Jupyter"),
   ("language_info", jobj
     [("name", .strJ "Node.js"),
      ("version", .strJ "0.10"),
      ("mimetype", .strJ "text/javascript"),
      ("file_extension", .strJ ".js"),
      ("pygments_lexer", .strJ "javascript"),
      ("codemirror_mode", .strJ "javascript")]),
   ("help_links", jarr
     [jobj [("text", .strJ "Node.js Documentation"),
            ("url", .strJ "https://nodejs.org/api/")],
      jobj [("text", .strJ "JavaScript Documentation (MDN)"),
            ("url", .strJ "https://developer.mozilla.org/en-US/docs/Web/JavaScript")]])]

def busyContent : Json := jobj [("execution_state", .strJ "busy")]

def idleContent : Json := jobj [("execution_state", .strJ "idle")]

def inputContent (code : Option Json) (ec : Nat) : Json :=
  .objJ (JsonFields.ofList
    ((match code with | some c => [("code", c)] | none => [])
      ++ [("execution_count", Json.numJ ec)]))

def resultContent (ec : Nat) (inspected : String) : Json :=
  jobj [("execution_count", .numJ ec),
        ("data", jobj [("text/plain", .strJ inspected)])]

def okReplyContent (ec : Nat) : Json :=
  jobj [("status", .strJ "ok"),
        ("execution_count", .numJ ec),
        ("user_expressions", jobj []),
        ("payload", jarr [])]

def errorEventContent (n m s : JSValue) : Json :=
  .objJ (JsonFields.ofList
    (optPair "ename" n ++ optPair "evalue" m
      ++ [("traceback", jarr [jsvInArr s])]))

def errorReplyContent (n m s : JSValue) (ec : Nat) : Json :=
  .objJ (JsonFields.ofList
    ([("status", Json.strJ "error")]
      ++ optPair "ename" n ++ optPair "evalue" m
      ++ [("traceback", jarr [jsvInArr s]),
          ("execution_count", Json.numJ ec),
          ("user_expressions", jobj []),
          ("payload", jarr [])]))

/-- The strict-equality dispatch data.header.msg_type === t. -/
def msgTypeIs (h : Json) (t : String) : Bool :=
  match jlookup h "msg_type" with
  | some (.strJ s) => s = t
  | _ => false

/-- The shell listener for one decoded message.  crashed records that an
exception escaped the listener (which brings the node process down). -/
def handleShell (st : KernelState) (msg : Parsed) (outcome : EvalOutcome) : KernelState × List Event × Bool :=
  if msgTypeIs msg.header "kernel_info_request" then
    (st, [.shellReply msg.uuids "kernel_info_reply" infoContent msg.header], false)
  else if msgTypeIs msg.header "execute_request" then
    let ec := st.executionCount + 1
    let busy := Event.iopubE "status" busyContent msg.header
    let input := Event.iopubE "execute_input" (inputContent (jlookup msg.content "code") ec) msg.header
    let st2 : KernelState := ⟨ec, some msg.header⟩
    match outcome with
    | .ok inspected =>
      (st2, [busy, input,
        .iopubE "execute_result" (resultContent ec inspected) msg.header,
        .shellReply msg.uuids "execute_reply" (okReplyContent ec) msg.header,
        .iopubE "status" idleContent msg.header], false)
    | .thrown e =>
      match getProp e "name", getProp e "message", getProp e "stack" with
      | .ok n, .ok m, .ok s =>
        (st2, [busy, input,
          .iopubE "error" (errorEventContent n m s) msg.header,
          .shellReply msg.uuids "execute_reply" (errorReplyContent n m s ec) msg.header,
          .iopubE "status" idleContent msg.header], false)
      | _, _, _ => (st2, [busy, input], true)
  else (st, [], false)

/-- Sequential processing of shell messages; a crash (uncaught exception in
the listener) stops the process, so nothing later is handled. -/
def runShell (st : KernelState) : List (Parsed × EvalOutcome) → KernelState × List Event × Bool
  | [] => (st, [], false)
  | (m, o) :: rest =>
    let r := handleShell st m o
    if r.2.2 then (r.1, r.2.1, true)
    else
      let rr := runShell r.1 rest
      (rr.1, r.2.1 ++ rr.2.1, rr.2.2)

/-- A console.log call made against the persistent context: the installed
hook broadcasts a stream event tagged with the header captured when the
hook was installed; before any execute request, console is undefined and
the call just throws. -/
def consoleLogEvent (st : KernelState) (text : String) : Option Event :=
  match st.consoleParent with
  | some h => some (.iopubE "stream"
      (jobj [("name", .strJ "stdout"), ("text", .strJ (text ++ "\n"))]) h)
  | none => none

/-- The execution_count field carried by a message content, if any. -/
def countOf (content : Json) : Option Int :=
  match jlookup content "execution_count" with
  | some (.numJ n) => some n
  | _ => none

/-- All execution_count values carried by execute_input, execute_result,
error and execute_reply messages, in emission order. -/
def countsIn (evs : List Event) : List Int :=
  evs.filterMap (fun ev =>
    match ev with
    | .iopubE t c _ =>
      if t = "execute_input" || t = "execute_result" || t = "error" then countOf c else none
    | .shellReply _ t c _ =>
      if t = "execute_reply" then countOf c else none)

/-- The execution_count values carried by the shell replies only. -/
def replyCounts (evs : List Event) : List Int :=
  evs.filterMap (fun ev =>
    match ev with
    | .shellReply _ t c _ => if t = "execute_reply" then countOf c else none
    | _ => none)

/-- Collapse consecutive repetitions. -/
def dedupC : List Int → List Int
  | [] => []
  | [x] => [x]
  | x :: y :: r => if x = y then dedupC (y :: r) else x :: dedupC (y :: r)

end Kernel

namespace Kernel

/-! ## The code transformer rewriteCode

The source parses the submitted code with acorn, then runs walk.ancestor
with two visitors: every VariableDeclaration node, at any depth, has its
kind overwritten to var; every ClassDeclaration node is replaced by
var name = class name {...} — but the replacement looks the node up in
ancestors[0].body, and walk.ancestor passes the ancestor chain outermost
first, so ancestors[0] is always the Program node: only class declarations
that sit directly in the program body are found (indexOf) and replaced; a
nested class declaration is assigned to body[-1], which changes nothing in
the printed output. -/

inductive VKind where
  | varK : VKind
  | letK : VKind
  | constK : VKind
deriving DecidableEq

/-- Expressions: the model keeps literals, identifiers, and named class
expressions with an opaque body (methods, inheritance, statics). -/
inductive Expr where
  | lit : Int → Expr
  | ident : String → Expr
  | classE : String → String → Expr
deriving DecidableEq

mutual

/-- Statements; a variable declaration carries its kind, name, and
optional initializer, a class declaration its name and opaque body. -/
inductive Stmt where
  | varDecl : VKind → String → Option Expr → Stmt
  | classDecl : String → String → Stmt
  | exprStmt : Expr → Stmt
  | block : StmtList → Stmt

inductive StmtList where
  | snil : StmtList
  | scons : Stmt → StmtList → StmtList

end

mutual

/-- The effect of the walk on statements below the program body: variable
declarations become var at every depth, class declarations stay (the
indexOf lookup in the program body misses them). -/
def rewriteStmt : Stmt → Stmt
  | .varDecl _ n i => .varDecl .varK n i
  | .classDecl n b => .classDecl n b
  | .exprStmt e => .exprStmt e
  | .block ss => .block (rewriteStmts ss)

def rewriteStmts : StmtList → StmtList
  | .snil => .snil
  | .scons s ss => .scons (rewriteStmt s) (rewriteStmts ss)

end

/-- The effect of the walk on a direct child of the program body: a class
declaration is replaced in place by a var declaration binding the named
class expression; everything else gets the deep var rewrite. -/
def rewriteTop : Stmt → Stmt
  | .classDecl n b => .varDecl .varK n (some (.classE n b))
  | s => rewriteStmt s

/-- The rewriteCode function of the source, on programs. -/
def rewriteCode (prog : List Stmt) : List Stmt := prog.map rewriteTop

mutual

/-- No variable declaration anywhere in the statement. -/
def noVarDeclStmt : Stmt → Bool
  | .varDecl _ _ _ => false
  | .classDecl _ _ => true
  | .exprStmt _ => true
  | .block ss => noVarDeclStmts ss

def noVarDeclStmts : StmtList → Bool
  | .snil => true
  | .scons s ss => noVarDeclStmt s && noVarDeclStmts ss

end

mutual

/-- Every variable declaration in the statement has kind var. -/
def allVarStmt : Stmt → Bool
  | .varDecl k _ _ => k = VKind.varK
  | .classDecl _ _ => true
  | .exprStmt _ => true
  | .block ss => allVarStmts ss

def allVarStmts : StmtList → Bool
  | .snil => true
  | .scons s ss => allVarStmt s && allVarStmts ss

end

def isClassDecl : Stmt → Bool
  | .classDecl _ _ => true
  | _ => false

/-! ## The persistent evaluation context

A small evaluator for the statements above, modelling the V8 behaviour
that makes the rewrite necessary: each vm.runInContext call performs
global declaration instantiation against the persistent context — a
lexical declaration (let, const, class) whose name is already bound
lexically or var-declared throws a SyntaxError before anything runs,
while var declarations may be re-declared freely and live as properties
of the context object. -/

inductive Value where
  | numV : Int → Value
  | classV : String → String → Value
  | undefV : Value
deriving DecidableEq

/-- The persistent context: the var properties of the context object, and the
global lexical environment that V8 keeps for the context across scripts. -/
structure Ctx where
  vars : List (String × Value)
  lex : List (String × Value)
deriving DecidableEq

def emptyCtx : Ctx := ⟨[], []⟩

def upsert (l : List (String × Value)) (k : String) (v : Value) : List (String × Value) :=
  match l with
  | [] => [(k, v)]
  | (k0, v0) :: r => if k0 = k then (k0, v) :: r else (k0, v0) :: upsert r k v

/-- Names a top-level statement declares lexically. -/
def lexNamesStmt : Stmt → List String
  | .varDecl .letK n _ => [n]
  | .varDecl .constK n _ => [n]
  | .classDecl n _ => [n]
  | _ => []

def lexNames (prog : List Stmt) : List String :=
  prog.foldr (fun s acc => lexNamesStmt s ++ acc) []

mutual

/-- Var-declared names, hoisted out of blocks. -/
def varNamesStmt : Stmt → List String
  | .varDecl .varK n _ => [n]
  | .varDecl _ _ _ => []
  | .classDecl _ _ => []
  | .exprStmt _ => []
  | .block ss => varNamesStmts ss

def varNamesStmts : StmtList → List String
  | .snil => []
  | .scons s ss => varNamesStmt s ++ varNamesStmts ss

end

def varNames (prog : List Stmt) : List String :=
  prog.foldr (fun s acc => varNamesStmt s ++ acc) []

def evalExpr (ctx : Ctx) : Expr → Value
  | .lit n => .numV n
  | .ident s =>
    match ctx.lex.lookup s with
    | some v => v
    | none => (ctx.vars.lookup s).getD .undefV
  | .classE n b => .classV n b

def evalInit (ctx : Ctx) : Option Expr → Value
  | some e => evalExpr ctx e
  | none => .undefV

mutual

def runStmt : Ctx → Stmt → Ctx
  | ctx, .varDecl .varK n i => ⟨upsert ctx.vars n (evalInit ctx i), ctx.lex⟩
  | ctx, .varDecl _ n i => ⟨ctx.vars, upsert ctx.lex n (evalInit ctx i)⟩
  | ctx, .classDecl n b => ⟨ctx.vars, upsert ctx.lex n (.classV n b)⟩
  | ctx, .exprStmt _ => ctx
  | ctx, .block ss =>
    let c2 := runStmtList ctx ss
    ⟨c2.vars, ctx.lex⟩

def runStmtList : Ctx → StmtList → Ctx
  | ctx, .snil => ctx
  | ctx, .scons s ss => runStmtList (runStmt ctx s) ss

end

def runStmts (ctx : Ctx) (prog : List Stmt) : Ctx :=
  prog.foldl runStmt ctx

def hasDup : List String → Bool
  | [] => false
  | x :: r => r.contains x || hasDup r

/-- One vm.runInContext call on the persistent context: global declaration
instantiation first (the redeclaration checks), then sequential execution. -/
def runProgram (ctx : Ctx) (prog : List Stmt) : Except String Ctx :=
  let ln := lexNames prog
  let vn := varNames prog
  if ln.any (fun n => (ctx.lex.lookup n).isSome || (ctx.vars.lookup n).isSome)
      || hasDup ln || ln.any (fun n => vn.contains n)
      || vn.any (fun n => (ctx.lex.lookup n).isSome) then
    .error "SyntaxError: Identifier has already been declared"
  else
    .ok (runStmts ctx prog)

end Kernel

namespace Kernel

/-- C1: parse never looks at the signature frame. -/
theorem parse_ignores_signature (ids : List String) (sig1 sig2 : String)
    (rest : List String) (hid : ∀ x ∈ ids, x ≠ DELIM) :
    parse (ids ++ DELIM :: sig1 :: rest) = parse (ids ++ DELIM :: sig2 :: rest) := by
  rw [parse_split ids sig1 rest hid, parse_split ids sig2 rest hid]

theorem parse_ignores_signature_witness :
    (∀ x ∈ ["id1"], x ≠ DELIM) ∧
      parse (["id1"] ++ DELIM :: "completely-wrong-signature" :: ["5", "6", "7", "8"]) =
        parse (["id1"] ++ DELIM :: "0123deadbeef" :: ["5", "6", "7", "8"]) :=
  ⟨by decide, parse_ignores_signature ["id1"] "completely-wrong-signature" "0123deadbeef"
    ["5", "6", "7", "8"] (by decide)⟩

end Kernel

namespace Kernel

/-- C7: the frames send produces, spelled out: identities, then the
delimiter, then the hex hmac of the four payload strings joined with no
separator, then the four payload strings; and the reply header carries the
fresh msg_id, the username and session of the parent, the message type and the
fixed protocol version. -/
theorem send_frames (hm : String → String → String) (key : String) (ids : List String)
    (msgType : String) (content parent metadata : Json) (replyId : String) :
    send hm key ids msgType content parent metadata replyId =
      ids ++ [DELIM,
        hm key (jsonStringify (mkHeader replyId msgType parent) ++ jsonStringify parent
          ++ jsonStringify metadata ++ jsonStringify content)]
        ++ [jsonStringify (mkHeader replyId msgType parent), jsonStringify parent,
            jsonStringify metadata, jsonStringify content] ∧
    jlookup (mkHeader replyId msgType parent) "msg_id" = some (.strJ replyId) ∧
    jlookup (mkHeader replyId msgType parent) "msg_type" = some (.strJ msgType) ∧
    jlookup (mkHeader replyId msgType parent) "version" = some (.strJ "5.1") ∧
    jlookup (mkHeader replyId msgType parent) "username" = jlookup parent "username" ∧
    jlookup (mkHeader replyId msgType parent) "session" = jlookup parent "session" := by
  refine ⟨?_, ?_⟩
  · rw [send, toHash]
    simp [String.join]
  · rw [mkHeader]
    cases hu : jlookup parent "username" <;> cases hs : jlookup parent "session" <;>
      simp [jlookup, JsonFields.ofList, lookFields]

end Kernel

namespace Kernel

theorem wf_lookFields : ∀ fs (k : String) v, wfFields fs = true → lookFields k fs = some v →
    wfJson v = true
  | .fnil, k, v => by
    intro h hl
    simp [lookFields] at hl
  | .fcons k0 v0 fs, k, v => by
    intro h hl
    rw [wfFields, Bool.and_eq_true, Bool.and_eq_true] at h
    rw [lookFields] at hl
    match hrec : lookFields k fs with
    | some r =>
      rw [hrec] at hl
      cases hl
      exact wf_lookFields fs k v h.2 hrec
    | none =>
      rw [hrec] at hl
      by_cases he : k0 = k
      · rw [if_pos he] at hl
        cases hl
        exact h.1.2
      · rw [if_neg he] at hl
        cases hl

theorem wf_jlookup (j : Json) (k : String) (v : Json) (hw : wfJson j = true)
    (hl : jlookup j k = some v) : wfJson v = true := by
  cases j <;> simp [jlookup] at hl
  case objJ fs =>
    rw [wfJson] at hw
    exact wf_lookFields fs k v hw hl

theorem wf_mkHeader (replyId msgType : String) (parent : Json)
    (hr : okString replyId = true) (ht : okString msgType = true)
    (hp : wfJson parent = true) : wfJson (mkHeader replyId msgType parent) = true := by
  rw [mkHeader]
  have h51 : okString "5.1" = true := by decide
  cases hu : jlookup parent "username" with
  | none =>
    cases hs : jlookup parent "session" with
    | none =>
      simp [JsonFields.ofList, wfJson, wfFields, hr, ht, h51]
      decide
    | some vs =>
      have hws := wf_jlookup parent "session" vs hp hs
      simp [JsonFields.ofList, wfJson, wfFields, hr, ht, h51, hws]
      decide
  | some vu =>
    have hwu := wf_jlookup parent "username" vu hp hu
    cases hs : jlookup parent "session" with
    | none =>
      simp [JsonFields.ofList, wfJson, wfFields, hr, ht, h51, hwu]
      decide
    | some vs =>
      have hws := wf_jlookup parent "session" vs hp hs
      simp [JsonFields.ofList, wfJson, wfFields, hr, ht, h51, hwu, hws]
      decide

/-- C4 (amended): decoding the frames send produced reproduces the
identities, the freshly built header, and the content; the metadata frame
is never decoded (parse returns only header, content and identities). -/
theorem parse_send_roundtrip (hm : String → String → String) (key : String)
    (ids : List String) (msgType : String) (content parent metadata : Json)
    (replyId : String) (hid : ∀ x ∈ ids, x ≠ DELIM)
    (hwc : wfJson content = true) (hwp : wfJson parent = true)
    (hr : okString replyId = true) (ht : okString msgType = true) :
    parse (send hm key ids msgType content parent metadata replyId) =
      .ok ⟨mkHeader replyId msgType parent, content, ids⟩ := by
  rw [send, toHash]
  have hsplit := parse_split ids
    (hm key (String.join [jsonStringify (mkHeader replyId msgType parent),
      jsonStringify parent, jsonStringify metadata, jsonStringify content]))
    [jsonStringify (mkHeader replyId msgType parent), jsonStringify parent,
      jsonStringify metadata, jsonStringify content] hid
  have heq : ids ++ [DELIM, hm key (String.join [jsonStringify (mkHeader replyId msgType parent),
      jsonStringify parent, jsonStringify metadata, jsonStringify content])]
      ++ [jsonStringify (mkHeader replyId msgType parent), jsonStringify parent,
          jsonStringify metadata, jsonStringify content]
    = ids ++ DELIM :: (hm key (String.join [jsonStringify (mkHeader replyId msgType parent),
      jsonStringify parent, jsonStringify metadata, jsonStringify content]))
      :: [jsonStringify (mkHeader replyId msgType parent), jsonStringify parent,
          jsonStringify metadata, jsonStringify content] := by simp
  rw [heq, hsplit, parsePayload]
  have hwh := wf_mkHeader replyId msgType parent hr ht hwp
  simp [jsonParse_stringify _ hwh, jsonParse_stringify _ hwc]

theorem parse_send_roundtrip_witness :
    (∀ x ∈ ["w1"], x ≠ DELIM) ∧
    wfJson (jobj [("data", .strJ "hello")]) = true ∧
    wfJson (jobj [("username", .strJ "kernel"), ("session", .strJ "s-1")]) = true ∧
    okString "rid-1" = true ∧ okString "execute_reply" = true ∧
    parse (send (fun _ _ => "sig") "k" ["w1"] "execute_reply"
        (jobj [("data", .strJ "hello")])
        (jobj [("username", .strJ "kernel"), ("session", .strJ "s-1")])
        (jobj []) "rid-1") =
      .ok ⟨mkHeader "rid-1" "execute_reply"
            (jobj [("username", .strJ "kernel"), ("session", .strJ "s-1")]),
          jobj [("data", .strJ "hello")], ["w1"]⟩ :=
  ⟨by decide, by decide, by decide, by decide, by decide,
    parse_send_roundtrip (fun _ _ => "sig") "k" ["w1"] "execute_reply"
      (jobj [("data", .strJ "hello")])
      (jobj [("username", .strJ "kernel"), ("session", .strJ "s-1")])
      (jobj []) "rid-1" (by decide) (by decide) (by decide) (by decide) (by decide)⟩

/-- C4 (counterexample): two encodes that differ only in their metadata
decode to the same result, so decode does not reproduce the metadata. -/
theorem parse_send_drops_metadata :
    parse (send (fun _ _ => "sig") "k" ["i1"] "execute_reply"
        (.numJ 5) (jobj []) (jobj [("meta", .numJ 1)]) "r1") =
      parse (send (fun _ _ => "sig") "k" ["i1"] "execute_reply"
        (.numJ 5) (jobj []) (jobj []) "r1") ∧
    jobj [("meta", .numJ 1)] ≠ jobj [] := by
  constructor
  · rfl
  · intro h
    simp [jobj, JsonFields.ofList] at h

end Kernel

namespace Kernel

/-- C6 (counterexample): a frame sequence with no delimiter at all on which
parse nevertheless succeeds, returning a message assembled from misaligned
frames (all frames but the last are taken as identities, and the frames at
offsets 1 and 4 happen to be valid JSON). -/
theorem parse_succeeds_without_delimiter :
    (["a", "5", "b", "c", "7"].all (fun s => !(s = DELIM : Bool))) = true ∧
    parse ["a", "5", "b", "c", "7"] =
      .ok ⟨.numJ 5, .numJ 7, ["a", "5", "b", "c"]⟩ := by
  constructor
  · decide
  · rfl

/-- C6 (amended): with the delimiter present and four payload frames, parse
puts only the first and fourth payload frames through JSON.parse — the
parent-header and metadata frames are never examined — and a JSON failure
is an ordinary thrown error with no handler; with fewer than four payload
frames the content destructuring yields undefined, whose JSON.parse also
throws. -/
theorem parse_payload_behavior (ids : List String) (sig h p m c : String)
    (hid : ∀ x ∈ ids, x ≠ DELIM) :
    (parse (ids ++ DELIM :: sig :: [h, p, m, c]) =
      match jsonParse h with
      | none => .error "SyntaxError"
      | some hj =>
        match jsonParse c with
        | none => .error "SyntaxError"
        | some cj => .ok ⟨hj, cj, ids⟩) ∧
    parse (ids ++ DELIM :: sig :: [h]) =
      (match jsonParse h with
        | none => Except.error "SyntaxError"
        | some _ => Except.error "SyntaxError") := by
  constructor
  · rw [parse_split ids sig [h, p, m, c] hid, parsePayload]
    rfl
  · rw [parse_split ids sig [h] hid, parsePayload]
    rfl

theorem parse_payload_behavior_witness :
    (∀ x ∈ ["w2"], x ≠ DELIM) ∧
    parse (["w2"] ++ DELIM :: "s" :: ["true", "junk-not-json", "also junk", "9"]) =
      .ok ⟨.boolJ true, .numJ 9, ["w2"]⟩ ∧
    parse (["w2"] ++ DELIM :: "s" :: ["true"]) = .error "SyntaxError" := by
  refine ⟨by decide, ?_, ?_⟩
  · rw [(parse_payload_behavior ["w2"] "s" "true" "junk-not-json" "also junk" "9"
      (by decide)).1]
    rfl
  · rw [(parse_payload_behavior ["w2"] "s" "true" "x" "y" "z" (by decide)).2]
    rfl

end Kernel

namespace Kernel

theorem msgTypeIs_ne (h : Json) (t1 t2 : String) (h1 : msgTypeIs h t1 = true)
    (hne : t1 ≠ t2) : msgTypeIs h t2 = false := by
  rw [msgTypeIs] at h1 ⊢
  cases hl : jlookup h "msg_type" with
  | none => simp [hl] at h1
  | some v =>
    rw [hl] at h1
    cases v with
    | strJ s =>
      simp at h1
      simp [h1, hne]
    | null => simp at h1
    | boolJ b => simp at h1
    | numJ n => simp at h1
    | arrJ xs => simp at h1
    | objJ fs => simp at h1

theorem getProp_ok_of_not_nullish (e : JSValue) (h1 : e ≠ .nullV) (h2 : e ≠ .undefinedV) :
    ∃ n m s, getProp e "name" = .ok n ∧ getProp e "message" = .ok m ∧
      getProp e "stack" = .ok s := by
  cases e with
  | nullV => exact absurd rfl h1
  | undefinedV => exact absurd rfl h2
  | numV n => exact ⟨_, _, _, rfl, rfl, rfl⟩
  | strV s => exact ⟨_, _, _, rfl, rfl, rfl⟩
  | boolV b => exact ⟨_, _, _, rfl, rfl, rfl⟩
  | objV n m s => exact ⟨_, _, _, rfl, rfl, rfl⟩

theorem completes_not_nullish (e : JSValue) (h : (EvalOutcome.thrown e).completes = true) :
    e ≠ .nullV ∧ e ≠ .undefinedV := by
  cases e <;> simp_all [EvalOutcome.completes]

/-- The execute branch of the handler on a successful evaluation. -/
theorem handle_exec_ok (st : KernelState) (msg : Parsed) (ins : String)
    (hm : msgTypeIs msg.header "execute_request" = true) :
    handleShell st msg (.ok ins) =
      (⟨st.executionCount + 1, some msg.header⟩,
       [.iopubE "status" busyContent msg.header,
        .iopubE "execute_input"
          (inputContent (jlookup msg.content "code") (st.executionCount + 1)) msg.header,
        .iopubE "execute_result" (resultContent (st.executionCount + 1) ins) msg.header,
        .shellReply msg.uuids "execute_reply" (okReplyContent (st.executionCount + 1)) msg.header,
        .iopubE "status" idleContent msg.header],
       false) := by
  have hki := msgTypeIs_ne msg.header "execute_request" "kernel_info_request" hm (by decide)
  rw [handleShell, hki, hm]
  simp

/-- The execute branch of the handler on a thrown value admitting property
access. -/
theorem handle_exec_thrown (st : KernelState) (msg : Parsed) (e : JSValue)
    (n m s : JSValue) (hm : msgTypeIs msg.header "execute_request" = true)
    (hn : getProp e "name" = .ok n) (hmsg : getProp e "message" = .ok m)
    (hs : getProp e "stack" = .ok s) :
    handleShell st msg (.thrown e) =
      (⟨st.executionCount + 1, some msg.header⟩,
       [.iopubE "status" busyContent msg.header,
        .iopubE "execute_input"
          (inputContent (jlookup msg.content "code") (st.executionCount + 1)) msg.header,
        .iopubE "error" (errorEventContent n m s) msg.header,
        .shellReply msg.uuids "execute_reply"
          (errorReplyContent n m s (st.executionCount + 1)) msg.header,
        .iopubE "status" idleContent msg.header],
       false) := by
  have hki := msgTypeIs_ne msg.header "execute_request" "kernel_info_request" hm (by decide)
  rw [handleShell, hki, hm]
  simp [hn, hmsg, hs]

/-- The execute branch of the handler when the thrown value is null or
undefined: the report construction throws, so only the busy and
execute_input events were emitted and the listener crashes. -/
theorem handle_exec_crash (st : KernelState) (msg : Parsed) (e : JSValue)
    (hm : msgTypeIs msg.header "execute_request" = true)
    (he : e = .nullV ∨ e = .undefinedV) :
    handleShell st msg (.thrown e) =
      (⟨st.executionCount + 1, some msg.header⟩,
       [.iopubE "status" busyContent msg.header,
        .iopubE "execute_input"
          (inputContent (jlookup msg.content "code") (st.executionCount + 1)) msg.header],
       true) := by
  have hki := msgTypeIs_ne msg.header "execute_request" "kernel_info_request" hm (by decide)
  rw [handleShell, hki, hm]
  rcases he with he | he <;> subst he <;> simp [getProp]

end Kernel

namespace Kernel

def isExecuteReply : Event → Bool
  | .shellReply _ t _ _ => t = "execute_reply"
  | _ => false

def isIdleStatus : Event → Bool
  | .iopubE t c _ =>
    t = "status" &&
      (match jlookup c "execution_state" with
       | some (.strJ s) => s = "idle"
       | _ => false)
  | _ => false

/-- C2 (amended): when the evaluation outcome admits the error report (in
particular always on success), the handler emits exactly the five steps in
order: busy, execute_input with the incremented count, the result or error
broadcast, the execute_reply, idle — so busy strictly precedes the reply
and idle strictly follows it — and installs the console hooks for this
request. -/
theorem execute_request_bracketing (st : KernelState) (msg : Parsed)
    (outcome : EvalOutcome) (hm : msgTypeIs msg.header "execute_request" = true)
    (hc : outcome.completes = true) :
    ∃ mid replyContent,
      handleShell st msg outcome =
        (⟨st.executionCount + 1, some msg.header⟩,
         [.iopubE "status" busyContent msg.header,
          .iopubE "execute_input"
            (inputContent (jlookup msg.content "code") (st.executionCount + 1)) msg.header,
          mid,
          .shellReply msg.uuids "execute_reply" replyContent msg.header,
          .iopubE "status" idleContent msg.header],
         false) := by
  cases outcome with
  | ok ins =>
    exact ⟨_, _, handle_exec_ok st msg ins hm⟩
  | thrown e =>
    obtain ⟨he1, he2⟩ := completes_not_nullish e hc
    obtain ⟨n, m, s, hn, hmsg, hs⟩ := getProp_ok_of_not_nullish e he1 he2
    exact ⟨_, _, handle_exec_thrown st msg e n m s hm hn hmsg hs⟩

theorem execute_request_bracketing_witness :
    msgTypeIs (jobj [("msg_type", .strJ "execute_request"), ("session", .strJ "s")])
        "execute_request" = true ∧
    (EvalOutcome.thrown (.objV (some "Error") (some "boom") (some "tb"))).completes = true ∧
    (∃ mid replyContent,
      handleShell initialState
          ⟨jobj [("msg_type", .strJ "execute_request"), ("session", .strJ "s")],
           jobj [("code", .strJ "throw new Error")], ["w3"]⟩
          (.thrown (.objV (some "Error") (some "boom") (some "tb"))) =
        (⟨1, some (jobj [("msg_type", .strJ "execute_request"), ("session", .strJ "s")])⟩,
         [.iopubE "status" busyContent
            (jobj [("msg_type", .strJ "execute_request"), ("session", .strJ "s")]),
          .iopubE "execute_input"
            (inputContent (jlookup (jobj [("code", .strJ "throw new Error")]) "code") 1)
            (jobj [("msg_type", .strJ "execute_request"), ("session", .strJ "s")]),
          mid,
          .shellReply ["w3"] "execute_reply" replyContent
            (jobj [("msg_type", .strJ "execute_request"), ("session", .strJ "s")]),
          .iopubE "status" idleContent
            (jobj [("msg_type", .strJ "execute_request"), ("session", .strJ "s")])],
         false)) :=
  ⟨rfl, rfl,
    execute_request_bracketing initialState
      ⟨jobj [("msg_type", .strJ "execute_request"), ("session", .strJ "s")],
       jobj [("code", .strJ "throw new Error")], ["w3"]⟩
      (.thrown (.objV (some "Error") (some "boom") (some "tb"))) rfl rfl⟩

/-- C2 (counterexample): with a thrown null, the handler emits busy and
execute_input and then crashes: no execute_reply and no idle status exist,
so the claimed bracketing fails. -/
theorem thrown_null_breaks_bracketing :
    handleShell initialState
        ⟨jobj [("msg_type", .strJ "execute_request"), ("session", .strJ "s1")],
         jobj [("code", .strJ "throw null")], ["c1"]⟩
        (.thrown .nullV) =
      (⟨1, some (jobj [("msg_type", .strJ "execute_request"), ("session", .strJ "s1")])⟩,
       [.iopubE "status" busyContent
          (jobj [("msg_type", .strJ "execute_request"), ("session", .strJ "s1")]),
        .iopubE "execute_input" (inputContent (some (.strJ "throw null")) 1)
          (jobj [("msg_type", .strJ "execute_request"), ("session", .strJ "s1")])],
       true) ∧
    ((handleShell initialState
        ⟨jobj [("msg_type", .strJ "execute_request"), ("session", .strJ "s1")],
         jobj [("code", .strJ "throw null")], ["c1"]⟩
        (.thrown .nullV)).2.1.all (fun ev => !isExecuteReply ev)) = true ∧
    ((handleShell initialState
        ⟨jobj [("msg_type", .strJ "execute_request"), ("session", .strJ "s1")],
         jobj [("code", .strJ "throw null")], ["c1"]⟩
        (.thrown .nullV)).2.1.all (fun ev => !isIdleStatus ev)) = true :=
  ⟨rfl, rfl, rfl⟩

end Kernel

namespace Kernel

/-- C5 (amended): a thrown value other than null and undefined — Error or
not, object or primitive — is caught, reported through the error broadcast
and the status-error execute_reply built from its name, message and stack
properties, and the kernel goes on to serve the rest of the queue. -/
theorem thrown_values_reported (st : KernelState) (msg : Parsed) (e : JSValue)
    (hm : msgTypeIs msg.header "execute_request" = true)
    (hn : e ≠ .nullV) (hu : e ≠ .undefinedV) :
    ∃ n m s, getProp e "name" = .ok n ∧ getProp e "message" = .ok m ∧
      getProp e "stack" = .ok s ∧
      handleShell st msg (.thrown e) =
        (⟨st.executionCount + 1, some msg.header⟩,
         [.iopubE "status" busyContent msg.header,
          .iopubE "execute_input"
            (inputContent (jlookup msg.content "code") (st.executionCount + 1)) msg.header,
          .iopubE "error" (errorEventContent n m s) msg.header,
          .shellReply msg.uuids "execute_reply"
            (errorReplyContent n m s (st.executionCount + 1)) msg.header,
          .iopubE "status" idleContent msg.header],
         false) ∧
      (∀ rest, runShell st ((msg, .thrown e) :: rest) =
        ((runShell ⟨st.executionCount + 1, some msg.header⟩ rest).1,
         (handleShell st msg (.thrown e)).2.1
           ++ (runShell ⟨st.executionCount + 1, some msg.header⟩ rest).2.1,
         (runShell ⟨st.executionCount + 1, some msg.header⟩ rest).2.2)) := by
  obtain ⟨n, m, s, hgn, hgm, hgs⟩ := getProp_ok_of_not_nullish e hn hu
  have hh := handle_exec_thrown st msg e n m s hm hgn hgm hgs
  refine ⟨n, m, s, hgn, hgm, hgs, hh, ?_⟩
  intro rest
  rw [runShell, hh]
  simp

theorem thrown_values_reported_witness :
    msgTypeIs (jobj [("msg_type", .strJ "execute_request")]) "execute_request" = true ∧
    (JSValue.numV 42 ≠ JSValue.nullV) ∧ (JSValue.numV 42 ≠ JSValue.undefinedV) ∧
    (∃ n m s, getProp (.numV 42) "name" = .ok n ∧ getProp (.numV 42) "message" = .ok m ∧
      getProp (.numV 42) "stack" = .ok s ∧
      handleShell ⟨7, none⟩
          ⟨jobj [("msg_type", .strJ "execute_request")], jobj [("code", .strJ "throw 42")], ["w4"]⟩
          (.thrown (.numV 42)) =
        (⟨8, some (jobj [("msg_type", .strJ "execute_request")])⟩,
         [.iopubE "status" busyContent (jobj [("msg_type", .strJ "execute_request")]),
          .iopubE "execute_input" (inputContent (some (.strJ "throw 42")) 8)
            (jobj [("msg_type", .strJ "execute_request")]),
          .iopubE "error" (errorEventContent n m s)
            (jobj [("msg_type", .strJ "execute_request")]),
          .shellReply ["w4"] "execute_reply" (errorReplyContent n m s 8)
            (jobj [("msg_type", .strJ "execute_request")]),
          .iopubE "status" idleContent (jobj [("msg_type", .strJ "execute_request")])],
         false) ∧
      (∀ rest, runShell ⟨7, none⟩
          ((⟨jobj [("msg_type", .strJ "execute_request")], jobj [("code", .strJ "throw 42")], ["w4"]⟩,
            EvalOutcome.thrown (.numV 42)) :: rest) =
        ((runShell ⟨8, some (jobj [("msg_type", .strJ "execute_request")])⟩ rest).1,
         (handleShell ⟨7, none⟩
            ⟨jobj [("msg_type", .strJ "execute_request")], jobj [("code", .strJ "throw 42")], ["w4"]⟩
            (.thrown (.numV 42))).2.1
           ++ (runShell ⟨8, some (jobj [("msg_type", .strJ "execute_request")])⟩ rest).2.1,
         (runShell ⟨8, some (jobj [("msg_type", .strJ "execute_request")])⟩ rest).2.2))) :=
  ⟨rfl, by decide, by decide,
    thrown_values_reported ⟨7, none⟩
      ⟨jobj [("msg_type", .strJ "execute_request")], jobj [("code", .strJ "throw 42")], ["w4"]⟩
      (.numV 42) rfl (by decide) (by decide)⟩

/-- C5 (counterexample): a thrown undefined is caught by the catch block,
but building the report reads e.name, which itself throws; the listener
dies with no error broadcast, no execute_reply, and the next message in
the queue is never handled. -/
theorem thrown_undefined_crashes_kernel :
    runShell ⟨3, none⟩
        [(⟨jobj [("msg_type", .strJ "execute_request")], jobj [("code", .strJ "throw undefined")], ["c2"]⟩,
          .thrown .undefinedV),
         (⟨jobj [("msg_type", .strJ "execute_request")], jobj [("code", .strJ "1+1")], ["c3"]⟩,
          .ok "2")] =
      (⟨4, some (jobj [("msg_type", .strJ "execute_request")])⟩,
       [.iopubE "status" busyContent (jobj [("msg_type", .strJ "execute_request")]),
        .iopubE "execute_input" (inputContent (some (.strJ "throw undefined")) 4)
          (jobj [("msg_type", .strJ "execute_request")])],
       true) ∧
    ((runShell ⟨3, none⟩
        [(⟨jobj [("msg_type", .strJ "execute_request")], jobj [("code", .strJ "throw undefined")], ["c2"]⟩,
          .thrown .undefinedV),
         (⟨jobj [("msg_type", .strJ "execute_request")], jobj [("code", .strJ "1+1")], ["c3"]⟩,
          .ok "2")]).2.1.all (fun ev => !isExecuteReply ev)) = true :=
  ⟨rfl, rfl⟩

/-- The kernel-info branch of the shell listener leaves the state alone. -/
theorem handle_kernel_info (st : KernelState) (msg : Parsed) (o : EvalOutcome)
    (hm : msgTypeIs msg.header "kernel_info_request" = true) :
    handleShell st msg o =
      (st, [.shellReply msg.uuids "kernel_info_reply" infoContent msg.header], false) := by
  rw [handleShell, hm]
  simp

/-- Whatever the outcome — success, reported error, or a crashed report —
an execute request leaves the counter incremented and the console hooks
bound to its header. -/
theorem handle_exec_state (st : KernelState) (msg : Parsed) (o : EvalOutcome)
    (hm : msgTypeIs msg.header "execute_request" = true) :
    (handleShell st msg o).1 = ⟨st.executionCount + 1, some msg.header⟩ := by
  have hki := msgTypeIs_ne msg.header "execute_request" "kernel_info_request" hm (by decide)
  rw [handleShell, hki, hm]
  cases o with
  | ok ins => simp
  | thrown e =>
    cases hn : getProp e "name" with
    | error u =>
      cases hmm : getProp e "message" with
      | error u2 =>
        cases hs : getProp e "stack" with
        | error u3 => simp [hn, hmm, hs]
        | ok s => simp [hn, hmm, hs]
      | ok m =>
        cases hs : getProp e "stack" with
        | error u3 => simp [hn, hmm, hs]
        | ok s => simp [hn, hmm, hs]
    | ok n =>
      cases hmm : getProp e "message" with
      | error u2 =>
        cases hs : getProp e "stack" with
        | error u3 => simp [hn, hmm, hs]
        | ok s => simp [hn, hmm, hs]
      | ok m =>
        cases hs : getProp e "stack" with
        | error u3 => simp [hn, hmm, hs]
        | ok s => simp [hn, hmm, hs]

/-- C10: after an execute request completes, the console hooks stay bound
to the header of that request: a console.log between requests still produces a
stream event whose parent is the header of the finished request; a kernel-info
request does not rebind them, and only the next execute request does. -/
theorem console_hooks_persist (st : KernelState) (msg : Parsed) (outcome : EvalOutcome)
    (hm : msgTypeIs msg.header "execute_request" = true) :
    (handleShell st msg outcome).1.consoleParent = some msg.header ∧
    (∀ text, consoleLogEvent (handleShell st msg outcome).1 text =
      some (.iopubE "stream"
        (jobj [("name", .strJ "stdout"), ("text", .strJ (text ++ "\n"))]) msg.header)) ∧
    (∀ msg2 o2, msgTypeIs msg2.header "kernel_info_request" = true →
      (handleShell (handleShell st msg outcome).1 msg2 o2).1.consoleParent = some msg.header) ∧
    (∀ msg2 o2, msgTypeIs msg2.header "execute_request" = true →
      (handleShell (handleShell st msg outcome).1 msg2 o2).1.consoleParent = some msg2.header) := by
  have hst := handle_exec_state st msg outcome hm
  refine ⟨by rw [hst], ?_, ?_, ?_⟩
  · intro text
    rw [hst, consoleLogEvent]
  · intro msg2 o2 h2
    rw [handle_kernel_info _ msg2 o2 h2, hst]
  · intro msg2 o2 h2
    rw [handle_exec_state _ msg2 o2 h2]

theorem console_hooks_persist_witness :
    msgTypeIs (jobj [("msg_type", .strJ "execute_request"), ("msg_id", .strJ "req-9")])
        "execute_request" = true ∧
    ((handleShell ⟨0, none⟩
        ⟨jobj [("msg_type", .strJ "execute_request"), ("msg_id", .strJ "req-9")],
         jobj [("code", .strJ "console.hook")], ["w5"]⟩ (.ok "undefined")).1.consoleParent =
      some (jobj [("msg_type", .strJ "execute_request"), ("msg_id", .strJ "req-9")]) ∧
     (∀ text, consoleLogEvent (handleShell ⟨0, none⟩
        ⟨jobj [("msg_type", .strJ "execute_request"), ("msg_id", .strJ "req-9")],
         jobj [("code", .strJ "console.hook")], ["w5"]⟩ (.ok "undefined")).1 text =
      some (.iopubE "stream"
        (jobj [("name", .strJ "stdout"), ("text", .strJ (text ++ "\n"))])
        (jobj [("msg_type", .strJ "execute_request"), ("msg_id", .strJ "req-9")]))) ∧
     (∀ msg2 o2, msgTypeIs msg2.header "kernel_info_request" = true →
      (handleShell (handleShell ⟨0, none⟩
        ⟨jobj [("msg_type", .strJ "execute_request"), ("msg_id", .strJ "req-9")],
         jobj [("code", .strJ "console.hook")], ["w5"]⟩ (.ok "undefined")).1 msg2 o2).1.consoleParent =
        some (jobj [("msg_type", .strJ "execute_request"), ("msg_id", .strJ "req-9")])) ∧
     (∀ msg2 o2, msgTypeIs msg2.header "execute_request" = true →
      (handleShell (handleShell ⟨0, none⟩
        ⟨jobj [("msg_type", .strJ "execute_request"), ("msg_id", .strJ "req-9")],
         jobj [("code", .strJ "console.hook")], ["w5"]⟩ (.ok "undefined")).1 msg2 o2).1.consoleParent =
        some msg2.header)) :=
  ⟨rfl, console_hooks_persist ⟨0, none⟩
    ⟨jobj [("msg_type", .strJ "execute_request"), ("msg_id", .strJ "req-9")],
     jobj [("code", .strJ "console.hook")], ["w5"]⟩ (.ok "undefined") rfl⟩

end Kernel

namespace Kernel

theorem countOf_errorEvent (n m s : JSValue) : countOf (errorEventContent n m s) = none := by
  rw [errorEventContent]
  cases hn : jsvToJson n <;> cases hm2 : jsvToJson m <;> simp [optPair, hn, hm2] <;> rfl

theorem countOf_errorReply (n m s : JSValue) (ec : Nat) :
    countOf (errorReplyContent n m s ec) = some (ec : Int) := by
  rw [errorReplyContent]
  cases hn : jsvToJson n <;> cases hm2 : jsvToJson m <;> simp [optPair, hn, hm2] <;> rfl

theorem countOf_input (code : Option Json) (ec : Nat) :
    countOf (inputContent code ec) = some (ec : Int) := by
  cases code <;> rfl

/-- For one completing execute request starting at count k, the emitted
execution_count values are three (success) or two (reported failure)
copies of k+1, and the reply carries exactly k+1. -/
theorem counts_handle (k : Nat) (cp : Option Json) (m : Parsed) (o : EvalOutcome)
    (hm : msgTypeIs m.header "execute_request" = true) (hc : o.completes = true) :
    ∃ evs, handleShell ⟨k, cp⟩ m o = (⟨k + 1, some m.header⟩, evs, false) ∧
      (countsIn evs = [((k + 1 : Nat) : Int), ((k + 1 : Nat) : Int), ((k + 1 : Nat) : Int)] ∨
        countsIn evs = [((k + 1 : Nat) : Int), ((k + 1 : Nat) : Int)]) ∧
      replyCounts evs = [((k + 1 : Nat) : Int)] ∧
      (countsIn evs).head? = some ((k + 1 : Nat) : Int) := by
  have hb : countOf busyContent = none := rfl
  have hid : countOf idleContent = none := rfl
  cases o with
  | ok ins =>
    have hr : countOf (resultContent (k + 1) ins) = some ((k + 1 : Nat) : Int) := rfl
    have hok : countOf (okReplyContent (k + 1)) = some ((k + 1 : Nat) : Int) := rfl
    refine ⟨_, handle_exec_ok ⟨k, cp⟩ m ins hm, ?_, ?_, ?_⟩
    · left
      simp [countsIn, hb, hid, hr, hok, countOf_input]
    · simp [replyCounts, hok]
    · simp [countsIn, hb, countOf_input]
  | thrown e =>
    obtain ⟨he1, he2⟩ := completes_not_nullish e hc
    obtain ⟨n, mm, s, hgn, hgm, hgs⟩ := getProp_ok_of_not_nullish e he1 he2
    refine ⟨_, handle_exec_thrown ⟨k, cp⟩ m e n mm s hm hgn hgm hgs, ?_, ?_, ?_⟩
    · right
      simp [countsIn, hb, hid, countOf_errorEvent, countOf_errorReply, countOf_input]
    · simp [replyCounts, countOf_errorReply]
    · simp [countsIn, hb, countOf_input]

theorem dedupC_two (c : Int) (t : List Int) : dedupC (c :: c :: t) = dedupC (c :: t) := by
  rw [dedupC.eq_def]
  simp

theorem dedupC_cons_ne (c d : Int) (t : List Int) (h : c ≠ d) :
    dedupC (c :: d :: t) = c :: dedupC (d :: t) := by
  rw [dedupC.eq_def]
  simp [h]

def expectedCounts (k n : Nat) : List Int := (List.range' (k + 1) n).map (fun j => (j : Int))

theorem expectedCounts_cons (k n : Nat) :
    expectedCounts k (n + 1) = ((k + 1 : Nat) : Int) :: expectedCounts (k + 1) n := by
  rw [expectedCounts, expectedCounts, List.range'_succ]
  simp

/-- The one-step dedup of a block of equal counts against the counts of the
remaining requests. -/
theorem dedupC_block (c : Int) (t : List Int)
    (ht : t = [] ∨ ∃ d t2, t = d :: t2 ∧ c ≠ d) :
    dedupC (c :: t) = c :: dedupC t := by
  rcases ht with ht | ⟨d, t2, ht, hne⟩
  · subst ht; rfl
  · subst ht; rw [dedupC_cons_ne c d t2 hne, dedupC.eq_def]

theorem counts_aux : ∀ (reqs : List (Parsed × EvalOutcome)) (k : Nat) (cp : Option Json),
    (∀ r ∈ reqs, msgTypeIs r.1.header "execute_request" = true) →
    (∀ r ∈ reqs, r.2.completes = true) →
    dedupC (countsIn (runShell ⟨k, cp⟩ reqs).2.1) = expectedCounts k reqs.length ∧
    replyCounts (runShell ⟨k, cp⟩ reqs).2.1 = expectedCounts k reqs.length ∧
    (countsIn (runShell ⟨k, cp⟩ reqs).2.1).head? =
      (if reqs.length = 0 then none else some ((k + 1 : Nat) : Int)) ∧
    (runShell ⟨k, cp⟩ reqs).2.2 = false := by
  intro reqs
  induction reqs with
  | nil =>
    intro k cp h1 h2
    simp [runShell, countsIn, replyCounts, dedupC, expectedCounts]
  | cons r rest ih =>
    intro k cp h1 h2
    obtain ⟨m, o⟩ := r
    have hm := h1 (m, o) (by simp)
    have hc := h2 (m, o) (by simp)
    obtain ⟨evs, hh, hcounts, hreply, hhead⟩ := counts_handle k cp m o hm hc
    have ihr := ih (k + 1) (some m.header)
      (fun x hx => h1 x (by simp [hx])) (fun x hx => h2 x (by simp [hx]))
    obtain ⟨ihd, ihr2, ihh, ihc⟩ := ihr
    rw [runShell, hh]
    simp only [Bool.false_eq_true, if_false, reduceIte, List.length_cons]
    have htail : countsIn (runShell ⟨k + 1, some m.header⟩ rest).2.1 = [] ∨
        ∃ d t2, countsIn (runShell ⟨k + 1, some m.header⟩ rest).2.1 = d :: t2 ∧
          ((k + 1 : Nat) : Int) ≠ d := by
      cases hrest : countsIn (runShell ⟨k + 1, some m.header⟩ rest).2.1 with
      | nil => exact Or.inl rfl
      | cons d t2 =>
        right
        refine ⟨d, t2, rfl, ?_⟩
        rw [hrest] at ihh
        cases hn : rest.length with
        | zero => rw [hn] at ihh; simp at ihh
        | succ nn =>
          rw [hn] at ihh
          simp at ihh
          omega
    have hca : countsIn (evs ++ (runShell ⟨k + 1, some m.header⟩ rest).2.1) =
        countsIn evs ++ countsIn (runShell ⟨k + 1, some m.header⟩ rest).2.1 := by
      rw [countsIn, countsIn, countsIn, List.filterMap_append]
    have hra : replyCounts (evs ++ (runShell ⟨k + 1, some m.header⟩ rest).2.1) =
        replyCounts evs ++ replyCounts (runShell ⟨k + 1, some m.header⟩ rest).2.1 := by
      rw [replyCounts, replyCounts, replyCounts, List.filterMap_append]
    refine ⟨?_, ?_, ?_, ihc⟩
    · rw [hca]
      rcases hcounts with hcv | hcv <;> rw [hcv]
      · rw [List.cons_append, List.cons_append, List.cons_append, List.nil_append,
          dedupC_two, dedupC_two, dedupC_block _ _ htail, ihd, expectedCounts_cons]
      · rw [List.cons_append, List.cons_append, List.nil_append,
          dedupC_two, dedupC_block _ _ htail, ihd, expectedCounts_cons]
    · rw [hra, hreply, ihr2, List.cons_append, List.nil_append, expectedCounts_cons]
    · rw [hca]
      rcases hcounts with hcv | hcv <;> rw [hcv] <;> simp

end Kernel

namespace Kernel

/-- C3 (amended): over any run of completing execute requests — successes
and reported failures, i.e. failures whose thrown value is not null or
undefined, in any order — the execution_count values carried by the
execute_input, execute_result, error and execute_reply messages are
exactly 1, 2, ..., N in request order (the messages of each request all carry
its own count, collapsed by dedupC), the replies carry 1, ..., N in order,
and the kernel survives the whole run. -/
theorem execution_counts_sequential (reqs : List (Parsed × EvalOutcome))
    (h1 : ∀ r ∈ reqs, msgTypeIs r.1.header "execute_request" = true)
    (h2 : ∀ r ∈ reqs, r.2.completes = true) :
    dedupC (countsIn (runShell initialState reqs).2.1) =
      (List.range' 1 reqs.length).map (fun n => (n : Int)) ∧
    replyCounts (runShell initialState reqs).2.1 =
      (List.range' 1 reqs.length).map (fun n => (n : Int)) ∧
    (runShell initialState reqs).2.2 = false := by
  have h := counts_aux reqs 0 none h1 h2
  exact ⟨h.1, h.2.1, h.2.2.2⟩

theorem execution_counts_sequential_witness :
    (∀ r ∈ [((⟨jobj [("msg_type", .strJ "execute_request")], jobj [("code", .strJ "1+1")], ["q1"]⟩ : Parsed),
             EvalOutcome.ok "2"),
            (⟨jobj [("msg_type", .strJ "execute_request")], jobj [("code", .strJ "boom()")], ["q2"]⟩,
             EvalOutcome.thrown (.objV (some "Error") (some "boom") (some "tb"))),
            (⟨jobj [("msg_type", .strJ "execute_request")], jobj [("code", .strJ "2+2")], ["q3"]⟩,
             EvalOutcome.ok "4")],
        msgTypeIs r.1.header "execute_request" = true) ∧
    (∀ r ∈ [((⟨jobj [("msg_type", .strJ "execute_request")], jobj [("code", .strJ "1+1")], ["q1"]⟩ : Parsed),
             EvalOutcome.ok "2"),
            (⟨jobj [("msg_type", .strJ "execute_request")], jobj [("code", .strJ "boom()")], ["q2"]⟩,
             EvalOutcome.thrown (.objV (some "Error") (some "boom") (some "tb"))),
            (⟨jobj [("msg_type", .strJ "execute_request")], jobj [("code", .strJ "2+2")], ["q3"]⟩,
             EvalOutcome.ok "4")],
        r.2.completes = true) ∧
    dedupC (countsIn (runShell initialState
        [((⟨jobj [("msg_type", .strJ "execute_request")], jobj [("code", .strJ "1+1")], ["q1"]⟩ : Parsed),
          EvalOutcome.ok "2"),
         (⟨jobj [("msg_type", .strJ "execute_request")], jobj [("code", .strJ "boom()")], ["q2"]⟩,
          EvalOutcome.thrown (.objV (some "Error") (some "boom") (some "tb"))),
         (⟨jobj [("msg_type", .strJ "execute_request")], jobj [("code", .strJ "2+2")], ["q3"]⟩,
          EvalOutcome.ok "4")]).2.1) = [(1 : Int), 2, 3] :=
  ⟨by decide, by decide,
    by
      have h := execution_counts_sequential
        [((⟨jobj [("msg_type", .strJ "execute_request")], jobj [("code", .strJ "1+1")], ["q1"]⟩ : Parsed),
          EvalOutcome.ok "2"),
         (⟨jobj [("msg_type", .strJ "execute_request")], jobj [("code", .strJ "boom()")], ["q2"]⟩,
          EvalOutcome.thrown (.objV (some "Error") (some "boom") (some "tb"))),
         (⟨jobj [("msg_type", .strJ "execute_request")], jobj [("code", .strJ "2+2")], ["q3"]⟩,
          EvalOutcome.ok "4")] (by decide) (by decide)
      rw [h.1]
      rfl⟩

end Kernel

namespace Kernel

def isDeclStmt : Stmt → Bool
  | .varDecl _ _ _ => true
  | .classDecl _ _ => true
  | _ => false

mutual

theorem rewriteStmt_id : ∀ s, noVarDeclStmt s = true → rewriteStmt s = s
  | .varDecl k n i => by intro h; simp [noVarDeclStmt] at h
  | .classDecl n b => by intro h; rfl
  | .exprStmt e => by intro h; rfl
  | .block ss => by
    intro h
    rw [noVarDeclStmt] at h
    rw [rewriteStmt, rewriteStmts_id ss h]

theorem rewriteStmts_id : ∀ ss, noVarDeclStmts ss = true → rewriteStmts ss = ss
  | .snil => by intro h; rfl
  | .scons s ss => by
    intro h
    rw [noVarDeclStmts, Bool.and_eq_true] at h
    rw [rewriteStmts, rewriteStmt_id s h.1, rewriteStmts_id ss h.2]

end

mutual

theorem rewriteStmt_allVar : ∀ s, allVarStmt (rewriteStmt s) = true
  | .varDecl k n i => by rfl
  | .classDecl n b => by rfl
  | .exprStmt e => by rfl
  | .block ss => by
    rw [rewriteStmt, allVarStmt]
    exact rewriteStmts_allVar ss

theorem rewriteStmts_allVar : ∀ ss, allVarStmts (rewriteStmts ss) = true
  | .snil => by rfl
  | .scons s ss => by
    rw [rewriteStmts, allVarStmts, Bool.and_eq_true]
    exact ⟨rewriteStmt_allVar s, rewriteStmts_allVar ss⟩

end

/-- C8 (amended): rewriteCode maps every variable declaration at every
depth to kind var, replaces exactly the top-level class declarations in
place by var bindings of the equivalent named class expression, and leaves
statements containing no variable declaration — in particular nested class
declarations — unchanged unless they are themselves top-level class
declarations. -/
theorem rewrite_characterization (prog : List Stmt) :
    rewriteCode prog = prog.map rewriteTop ∧
    (∀ s ∈ prog, noVarDeclStmt s = true → isClassDecl s = false → rewriteTop s = s) ∧
    (∀ s ∈ rewriteCode prog, allVarStmt s = true) ∧
    (∀ n b, rewriteTop (.classDecl n b) = .varDecl .varK n (some (.classE n b))) := by
  refine ⟨rfl, ?_, ?_, fun n b => rfl⟩
  · intro s _ hnv hnc
    cases s with
    | varDecl k n i => simp [noVarDeclStmt] at hnv
    | classDecl n b => simp [isClassDecl] at hnc
    | exprStmt e => rfl
    | block ss =>
      rw [noVarDeclStmt] at hnv
      show Stmt.block (rewriteStmts ss) = Stmt.block ss
      rw [rewriteStmts_id ss hnv]
  · intro s hs
    rw [rewriteCode] at hs
    obtain ⟨s0, _, hmap⟩ := List.mem_map.mp hs
    subst hmap
    cases s0 with
    | classDecl n b => rfl
    | varDecl k n i => exact rewriteStmt_allVar (.varDecl k n i)
    | exprStmt e => rfl
    | block ss =>
      show allVarStmt (rewriteStmt (.block ss)) = true
      exact rewriteStmt_allVar (.block ss)

theorem rewrite_characterization_witness :
    (∀ s ∈ [Stmt.exprStmt (.lit 1), Stmt.classDecl "A" "body"],
      noVarDeclStmt s = true → isClassDecl s = false → rewriteTop s = s) ∧
    (∀ s ∈ rewriteCode [Stmt.exprStmt (.lit 1), Stmt.classDecl "A" "body"],
      allVarStmt s = true) :=
  ⟨(rewrite_characterization [Stmt.exprStmt (.lit 1), Stmt.classDecl "A" "body"]).2.1,
   (rewrite_characterization [Stmt.exprStmt (.lit 1), Stmt.classDecl "A" "body"]).2.2.1⟩

/-- C8 (counterexample): a top-level block statement — not a declaration —
containing a let declaration is changed by the transform (the nested let
becomes var), so statements other than top-level declarations are not all
passed through unchanged. -/
theorem nested_let_is_rewritten :
    isDeclStmt (.block (.scons (.varDecl .letK "x" (some (.lit 1))) .snil)) = false ∧
    rewriteCode [.block (.scons (.varDecl .letK "x" (some (.lit 1))) .snil)] =
      [.block (.scons (.varDecl .varK "x" (some (.lit 1))) .snil)] ∧
    rewriteCode [.block (.scons (.varDecl .letK "x" (some (.lit 1))) .snil)] ≠
      [.block (.scons (.varDecl .letK "x" (some (.lit 1))) .snil)] := by
  refine ⟨rfl, rfl, ?_⟩
  intro h
  simp [rewriteCode, rewriteTop, rewriteStmt, rewriteStmts] at h

end Kernel

namespace Kernel

/-- C9: a block-scoped declaration of the same name submitted in two
successive requests runs without a redeclaration error once rewriteCode
has turned it into var — the second run rebinds the name — and likewise a
named class submitted twice binds independently each time; without the
rewrite, the very same second submission is rejected by the
redeclaration check of the context. -/
theorem redeclaration_safety (x : String) (v1 v2 : Int) (cn b1 b2 : String) :
    (∃ ctx1, runProgram emptyCtx (rewriteCode [.varDecl .letK x (some (.lit v1))]) = .ok ctx1 ∧
      ctx1.vars.lookup x = some (.numV v1) ∧
      ∃ ctx2, runProgram ctx1 (rewriteCode [.varDecl .letK x (some (.lit v2))]) = .ok ctx2 ∧
        ctx2.vars.lookup x = some (.numV v2)) ∧
    (∃ d1, runProgram emptyCtx (rewriteCode [.classDecl cn b1]) = .ok d1 ∧
      d1.vars.lookup cn = some (.classV cn b1) ∧
      ∃ d2, runProgram d1 (rewriteCode [.classDecl cn b2]) = .ok d2 ∧
        d2.vars.lookup cn = some (.classV cn b2)) ∧
    (∃ lctx1, runProgram emptyCtx [.varDecl .letK x (some (.lit v1))] = .ok lctx1 ∧
      runProgram lctx1 [.varDecl .letK x (some (.lit v2))] =
        .error "SyntaxError: Identifier has already been declared") := by
  have hc1 : runProgram emptyCtx (rewriteCode [.varDecl .letK x (some (.lit v1))]) =
      .ok (⟨[(x, .numV v1)], []⟩ : Ctx) := rfl
  have hc2 : runProgram (⟨[(x, .numV v1)], []⟩ : Ctx)
      (rewriteCode [.varDecl .letK x (some (.lit v2))]) = .ok (⟨[(x, .numV v2)], []⟩ : Ctx) := by
    show Except.ok (⟨upsert [(x, .numV v1)] x (.numV v2), []⟩ : Ctx) = _
    rw [upsert]
    simp
  have hd1 : runProgram emptyCtx (rewriteCode [.classDecl cn b1]) =
      .ok (⟨[(cn, .classV cn b1)], []⟩ : Ctx) := rfl
  have hd2 : runProgram (⟨[(cn, .classV cn b1)], []⟩ : Ctx)
      (rewriteCode [.classDecl cn b2]) = .ok (⟨[(cn, .classV cn b2)], []⟩ : Ctx) := by
    show Except.ok (⟨upsert [(cn, .classV cn b1)] cn (.classV cn b2), []⟩ : Ctx) = _
    rw [upsert]
    simp
  have hl1 : runProgram emptyCtx [.varDecl .letK x (some (.lit v1))] =
      .ok (⟨[], [(x, .numV v1)]⟩ : Ctx) := rfl
  have hl2 : runProgram (⟨[], [(x, .numV v1)]⟩ : Ctx) [.varDecl .letK x (some (.lit v2))] =
      .error "SyntaxError: Identifier has already been declared" := by
    simp [runProgram, lexNames, lexNamesStmt, varNames, varNamesStmt, hasDup, List.lookup]
  refine ⟨⟨_, hc1, ?_, _, hc2, ?_⟩, ⟨_, hd1, ?_, _, hd2, ?_⟩, _, hl1, hl2⟩ <;>
    simp [List.lookup]

end Kernel

namespace Kernel

/-- C3 (counterexample): in a two-request sequence whose first evaluation
throws null, the kernel crashes while building the error report: the only
execution_count ever emitted is 1 (on the execute_input of the first
request), no reply carries any count, and the second request is never
handled — so the emitted counts are a strict prefix of 1, 2 rather than
exactly 1, 2. -/
theorem crash_truncates_counts :
    dedupC (countsIn (runShell initialState
        [((⟨jobj [("msg_type", .strJ "execute_request")], jobj [("code", .strJ "throw null")], ["r1"]⟩ : Parsed),
          EvalOutcome.thrown .nullV),
         (⟨jobj [("msg_type", .strJ "execute_request")], jobj [("code", .strJ "2+2")], ["r2"]⟩,
          EvalOutcome.ok "4")]).2.1) = [(1 : Int)] ∧
    replyCounts (runShell initialState
        [((⟨jobj [("msg_type", .strJ "execute_request")], jobj [("code", .strJ "throw null")], ["r1"]⟩ : Parsed),
          EvalOutcome.thrown .nullV),
         (⟨jobj [("msg_type", .strJ "execute_request")], jobj [("code", .strJ "2+2")], ["r2"]⟩,
          EvalOutcome.ok "4")]).2.1 = [] ∧
    (runShell initialState
        [((⟨jobj [("msg_type", .strJ "execute_request")], jobj [("code", .strJ "throw null")], ["r1"]⟩ : Parsed),
          EvalOutcome.thrown .nullV),
         (⟨jobj [("msg_type", .strJ "execute_request")], jobj [("code", .strJ "2+2")], ["r2"]⟩,
          EvalOutcome.ok "4")]).2.2 = true ∧
    ([(1 : Int)] ≠ (List.range' 1 2).map (fun n => (n : Int))) := by
  refine ⟨rfl, rfl, rfl, ?_⟩
  intro h
  simp [List.range'] at h

end Kernel
